import Mathlib

/-!
Shallow embedding of the Battleship Guru program (guru.py) and verification
of its specification claims.

The board is a list of `width` columns, each a list of `height` cells, with
`board[x][y]` addressed column-first exactly as in the source.  Python list
indexing semantics (negative indices wrap once, out-of-range indexing raises)
is modelled by `pyIdx` / `pyGet` / `pySet`; an operation that can raise
returns `Option` / `Except`, with the exceptional value carrying the state at
the moment the exception is thrown.
-/

/-- Resolve a Python list index: `0 ≤ i < n` is used directly, `-n ≤ i < 0`
wraps to `n + i`, and anything else raises (`none`). -/
def pyIdx (n : Nat) (i : Int) : Option Nat :=
  if 0 ≤ i then
    if i < (n : Int) then some i.toNat else none
  else
    if 0 ≤ i + (n : Int) then some (i + (n : Int)).toNat else none

/-- Python `l[i]` read. -/
def pyGet (l : List α) (i : Int) : Option α :=
  (pyIdx l.length i).bind (fun k => l.get? k)

/-- Python `l[i] = a` write. -/
def pySet (l : List α) (i : Int) (a : α) : Option (List α) :=
  (pyIdx l.length i).map (fun k => l.set k a)

/-- Game board: list of columns, `board[x][y]`. -/
abbrev Board := List (List Char)

/-- Python `board[x][y]` read. -/
def bGet (b : Board) (x y : Int) : Option Char :=
  (pyGet b x).bind (fun col => pyGet col y)

/-- Python `board[x][y] = c` write. -/
def bSet (b : Board) (x y : Int) (c : Char) : Option Board :=
  (pyIdx b.length x).bind (fun k =>
    (b.get? k).bind (fun col =>
      (pySet col y c).map (fun col2 => b.set k col2)))

/-- Total in-bounds read used by the bounds-guarded loops of the source
(`_gen_prob_map` checks `x + shift >= self.width` before indexing, so on a
well-formed board the default is never consulted). -/
def cell (b : Board) (x y : Nat) : Char :=
  (b.getD x []).getD y ' '

/-- Board built by `Battleship.__init__`: `width` columns of `height`
`'.'`-cells. -/
def mkBoard (W H : Nat) : Board :=
  List.replicate W (List.replicate H '.')

/-- Board well-formedness: `width` columns, each of length `height`. -/
def WF (W H : Nat) (b : Board) : Prop :=
  b.length = W ∧ ∀ col ∈ b, col.length = H

instance (W H : Nat) (b : Board) : Decidable (WF W H b) :=
  inferInstanceAs (Decidable (_ ∧ ∀ col ∈ b, _))

/-! ## Probability map (`Battleship._gen_prob_map`) -/

/-- The `width × height` integer array `self.prob_map`, as a function. -/
def Map2 : Type := Nat × Nat → Nat

/-- One `self.prob_map[x][y] += 1` increment. -/
def bump (m : Map2) (q : Nat × Nat) : Map2 :=
  fun p => if p = q then m p + 1 else m p

/-- A run of `+= 1` increments, one per listed cell. -/
def bumpCells (l : List (Nat × Nat)) (m : Map2) : Map2 :=
  l.foldl bump m

/-- Cells receiving increments when a rightward ship location is valid:
`self.prob_map[x + x_shift][y] += 1` for `x_shift in range(ship)`. -/
def hCells (L ox oy : Nat) : List (Nat × Nat) :=
  (List.range L).map (fun s => (ox + s, oy))

/-- Cells receiving increments when a downward ship location is valid. -/
def vCells (L ox oy : Nat) : List (Nat × Nat) :=
  (List.range L).map (fun s => (ox, oy + s))

/-- The `x_valid` flag of `_gen_prob_map`: every `shift in range(ship)` has
`x + shift < width` and the board cell `"."`. -/
def hValidB (b : Board) (W L ox oy : Nat) : Bool :=
  (List.range L).all (fun s => decide (ox + s < W) && (cell b (ox + s) oy == '.'))

/-- The `y_valid` flag of `_gen_prob_map`. -/
def vValidB (b : Board) (H L ox oy : Nat) : Bool :=
  (List.range L).all (fun s => decide (oy + s < H) && (cell b ox (oy + s) == '.'))

/-- Body of the innermost `for x in range(self.width)` loop of
`_gen_prob_map`: test both orientations from origin `(ox, oy)` and apply the
corresponding increments. -/
def originStep (b : Board) (W H L oy ox : Nat) (m : Map2) : Map2 :=
  let m1 := if hValidB b W L ox oy then bumpCells (hCells L ox oy) m else m
  if vValidB b H L ox oy then bumpCells (vCells L ox oy) m1 else m1

/-- The `for x in range(self.width)` loop. -/
def rowStep (b : Board) (W H L oy : Nat) (m : Map2) : Map2 :=
  (List.range W).foldl (fun acc ox => originStep b W H L oy ox acc) m

/-- The `for y in range(self.height)` loop. -/
def shipStep (b : Board) (W H L : Nat) (m : Map2) : Map2 :=
  (List.range H).foldl (fun acc oy => rowStep b W H L oy acc) m

/-- `Battleship._gen_prob_map`: loop over all ships still in game (ship
lengths are the ints the user typed; `range` of a non-positive length is
empty, hence `Int.toNat`). -/
def gen_prob_map (b : Board) (W H : Nat) (ships : List Int) : Map2 :=
  ships.foldl (fun m s => shipStep b W H s.toNat m) (fun _ => 0)

/-! Claim-side counting definitions, written from the specification text:
a placement of a length-`L` segment fits the grid, covers `(x, y)` and has
every covered cell `unknown`. -/

/-- Spec wording: a horizontal `L`-segment with origin `(ox, oy)` fits within
the `W × H` grid and every covered cell is unknown. -/
def hPlaceOK (b : Board) (W H L ox oy : Nat) : Bool :=
  decide (ox + L ≤ W) && decide (oy < H) &&
    (List.range L).all (fun s => cell b (ox + s) oy == '.')

/-- Spec wording: a vertical `L`-segment with origin `(ox, oy)` fits within
the grid and every covered cell is unknown. -/
def vPlaceOK (b : Board) (W H L ox oy : Nat) : Bool :=
  decide (oy + L ≤ H) && decide (ox < W) &&
    (List.range L).all (fun s => cell b ox (oy + s) == '.')

/-- The horizontal `L`-segment with origin `(ox, oy)` covers `(x, y)`. -/
def hCovB (L ox oy x y : Nat) : Bool :=
  decide (oy = y) && decide (ox ≤ x) && decide (x < ox + L)

/-- The vertical `L`-segment with origin `(ox, oy)` covers `(x, y)`. -/
def vCovB (L ox oy x y : Nat) : Bool :=
  decide (ox = x) && decide (oy ≤ y) && decide (y < oy + L)

/-- Number of placements of a single length-`L` ship (both orientations,
counted separately) that fit, cover `(x, y)`, and sit on unknown cells. -/
def coverCountShip (b : Board) (W H L x y : Nat) : Nat :=
  ((List.range H).map (fun oy => (List.range W).countP
      (fun ox => hPlaceOK b W H L ox oy && hCovB L ox oy x y))).sum
  + ((List.range H).map (fun oy => (List.range W).countP
      (fun ox => vPlaceOK b W H L ox oy && vCovB L ox oy x y))).sum

/-- Number of pairs (ship entry of the remaining list, placement) fitting,
covering `(x, y)`, on unknown cells; a length occurring `k` times in the
list contributes `k` times. -/
def coverCount (b : Board) (W H : Nat) (ships : List Int) (x y : Nat) : Nat :=
  (ships.map (fun s => coverCountShip b W H s.toNat x y)).sum

/-! ## Fold bookkeeping lemmas -/

/-- Additive-measure lemma for the imperative loops: if every step adds a
step-dependent amount to the measure, the loop adds the sum. -/
lemma foldl_measure {α : Type} (μ : Map2 → Nat) (F : α → Map2 → Map2)
    (g : α → Nat) (l : List α) (h : ∀ a ∈ l, ∀ m, μ (F a m) = μ m + g a) :
    ∀ m0 : Map2, μ (l.foldl (fun m a => F a m) m0) = μ m0 + (l.map g).sum := by
  induction l with
  | nil => intro m0; simp
  | cons a t ih =>
    intro m0
    have ha := h a (by simp)
    have ht : ∀ a ∈ t, ∀ m, μ (F a m) = μ m + g a := fun x hx => h x (by simp [hx])
    simp only [List.foldl_cons, List.map_cons, List.sum_cons]
    rw [ih ht, ha]
    omega

lemma bump_apply (m : Map2) (q p : Nat × Nat) :
    bump m q p = m p + (if p = q then 1 else 0) := by
  unfold bump; split <;> simp

lemma count_singleton_pair (a q : Nat × Nat) :
    List.count a [q] = if a = q then 1 else 0 := by
  by_cases h : a = q
  · subst h; simp
  · have hb : (q == a) = false := by
      simp only [beq_eq_false_iff_ne]
      exact fun hh => h hh.symm
    simp [List.count_cons, hb, h]

lemma bumpCells_apply (l : List (Nat × Nat)) (m : Map2) (p : Nat × Nat) :
    bumpCells l m p = m p + l.count p := by
  induction l generalizing m with
  | nil => simp [bumpCells]
  | cons q t ih =>
    simp only [bumpCells, List.foldl_cons] at *
    rw [ih, bump_apply, List.count_cons]
    by_cases h : p = q
    · subst h; simp; omega
    · have hb : (q == p) = false := by
        simp only [beq_eq_false_iff_ne]
        exact fun hh => h hh.symm
      simp [h, hb]

lemma hCovB_iff (L ox oy x y : Nat) :
    hCovB L ox oy x y = true ↔ (oy = y ∧ ox ≤ x ∧ x < ox + L) := by
  simp [hCovB, and_assoc]

lemma vCovB_iff (L ox oy x y : Nat) :
    vCovB L ox oy x y = true ↔ (ox = x ∧ oy ≤ y ∧ y < oy + L) := by
  simp [vCovB, and_assoc]

lemma count_hCells (L ox oy x y : Nat) :
    (hCells L ox oy).count (x, y) = if hCovB L ox oy x y then 1 else 0 := by
  simp only [hCovB_iff]
  induction L with
  | zero =>
    simp only [hCells, List.range_zero, List.map_nil, List.count_nil]
    split
    · omega
    · rfl
  | succ n ih =>
    simp only [hCells] at ih ⊢
    rw [List.range_succ, List.map_append, List.count_append, ih, List.map_cons,
      List.map_nil, count_singleton_pair]
    have hpair : (((x, y) : Nat × Nat) = (ox + n, oy)) ↔ (x = ox + n ∧ y = oy) := by
      simp [Prod.ext_iff]
    simp only [hpair]
    split_ifs <;> omega

lemma count_vCells (L ox oy x y : Nat) :
    (vCells L ox oy).count (x, y) = if vCovB L ox oy x y then 1 else 0 := by
  simp only [vCovB_iff]
  induction L with
  | zero =>
    simp only [vCells, List.range_zero, List.map_nil, List.count_nil]
    split
    · omega
    · rfl
  | succ n ih =>
    simp only [vCells] at ih ⊢
    rw [List.range_succ, List.map_append, List.count_append, ih, List.map_cons,
      List.map_nil, count_singleton_pair]
    have hpair : (((x, y) : Nat × Nat) = (ox, oy + n)) ↔ (x = ox ∧ y = oy + n) := by
      simp [Prod.ext_iff]
    simp only [hpair]
    split_ifs <;> omega

lemma originStep_apply (b : Board) (W H L oy ox : Nat) (m : Map2) (p : Nat × Nat) :
    originStep b W H L oy ox m p =
      m p + ((if hValidB b W L ox oy && hCovB L ox oy p.1 p.2 then 1 else 0)
            + (if vValidB b H L ox oy && vCovB L ox oy p.1 p.2 then 1 else 0)) := by
  obtain ⟨x, y⟩ := p
  unfold originStep
  cases hv : hValidB b W L ox oy <;> cases vv : vValidB b H L ox oy <;>
    simp [bumpCells_apply, count_hCells, count_vCells] <;> omega

lemma bool_eq_of_iff {a b : Bool} (h : (a = true) ↔ (b = true)) : a = b := by
  cases a <;> cases b <;> simp_all

lemma sum_map_add {α : Type} (l : List α) (f g : α → Nat) :
    (l.map (fun a => f a + g a)).sum = (l.map f).sum + (l.map g).sum := by
  induction l with
  | nil => simp
  | cons a t ih => simp only [List.map_cons, List.sum_cons, ih]; omega

lemma sum_map_if {α : Type} (l : List α) (p : α → Bool) :
    (l.map (fun a => if p a then (1 : Nat) else 0)).sum = l.countP p := by
  induction l with
  | nil => simp
  | cons a t ih => simp only [List.map_cons, List.sum_cons, List.countP_cons, ih]; omega

lemma sum_map_if_const {α : Type} (l : List α) (p : α → Bool) (c : Nat) :
    (l.map (fun a => if p a then c else 0)).sum = c * l.countP p := by
  induction l with
  | nil => simp
  | cons a t ih =>
    simp only [List.map_cons, List.sum_cons, List.countP_cons, ih]
    by_cases h : p a
    · simp only [h, if_pos, Nat.mul_add, Nat.mul_one]
      omega
    · simp [h]

lemma rowStep_apply (b : Board) (W H L oy : Nat) (m : Map2) (x y : Nat) :
    rowStep b W H L oy m (x, y) = m (x, y) +
      ((List.range W).map (fun ox =>
        (if hValidB b W L ox oy && hCovB L ox oy x y then 1 else 0)
        + (if vValidB b H L ox oy && vCovB L ox oy x y then 1 else 0))).sum := by
  exact foldl_measure (fun mm => mm (x, y)) (fun ox acc => originStep b W H L oy ox acc)
    (fun ox => (if hValidB b W L ox oy && hCovB L ox oy x y then 1 else 0)
        + (if vValidB b H L ox oy && vCovB L ox oy x y then 1 else 0))
    (List.range W)
    (fun ox _ mm => originStep_apply b W H L oy ox mm (x, y)) m

lemma hValidB_eq_hPlaceOK (b : Board) (W H L ox oy : Nat) (hox : ox < W) (hoy : oy < H) :
    hValidB b W L ox oy = hPlaceOK b W H L ox oy := by
  apply bool_eq_of_iff
  simp only [hValidB, hPlaceOK, List.all_eq_true, List.mem_range, Bool.and_eq_true,
    decide_eq_true_eq, beq_iff_eq]
  constructor
  · intro h
    refine ⟨⟨?_, hoy⟩, fun s hs => (h s hs).2⟩
    cases L with
    | zero => omega
    | succ n => have := (h n (by omega)).1; omega
  · rintro ⟨⟨h1, _⟩, h2⟩ s hs
    exact ⟨by omega, h2 s hs⟩

lemma vValidB_eq_vPlaceOK (b : Board) (W H L ox oy : Nat) (hox : ox < W) (hoy : oy < H) :
    vValidB b H L ox oy = vPlaceOK b W H L ox oy := by
  apply bool_eq_of_iff
  simp only [vValidB, vPlaceOK, List.all_eq_true, List.mem_range, Bool.and_eq_true,
    decide_eq_true_eq, beq_iff_eq]
  constructor
  · intro h
    refine ⟨⟨?_, hox⟩, fun s hs => (h s hs).2⟩
    cases L with
    | zero => omega
    | succ n => have := (h n (by omega)).1; omega
  · rintro ⟨⟨h1, _⟩, h2⟩ s hs
    exact ⟨by omega, h2 s hs⟩

lemma row_h_sum (b : Board) (W H L oy x y : Nat) (hoy : oy < H) :
    ((List.range W).map (fun ox =>
        if hValidB b W L ox oy && hCovB L ox oy x y then (1 : Nat) else 0)).sum
      = (List.range W).countP (fun ox => hPlaceOK b W H L ox oy && hCovB L ox oy x y) := by
  rw [← sum_map_if]
  apply congrArg List.sum
  apply List.map_congr_left
  intro ox hox
  rw [hValidB_eq_hPlaceOK b W H L ox oy (List.mem_range.mp hox) hoy]

lemma row_v_sum (b : Board) (W H L oy x y : Nat) (hoy : oy < H) :
    ((List.range W).map (fun ox =>
        if vValidB b H L ox oy && vCovB L ox oy x y then (1 : Nat) else 0)).sum
      = (List.range W).countP (fun ox => vPlaceOK b W H L ox oy && vCovB L ox oy x y) := by
  rw [← sum_map_if]
  apply congrArg List.sum
  apply List.map_congr_left
  intro ox hox
  rw [vValidB_eq_vPlaceOK b W H L ox oy (List.mem_range.mp hox) hoy]

lemma shipStep_cover (b : Board) (W H L x y : Nat) (m : Map2) :
    shipStep b W H L m (x, y) = m (x, y) + coverCountShip b W H L x y := by
  have hstep := foldl_measure (fun mm => mm (x, y)) (fun oy acc => rowStep b W H L oy acc)
    (fun oy => ((List.range W).map (fun ox =>
        (if hValidB b W L ox oy && hCovB L ox oy x y then 1 else 0)
        + (if vValidB b H L ox oy && vCovB L ox oy x y then 1 else 0))).sum)
    (List.range H)
    (fun oy _ mm => rowStep_apply b W H L oy mm x y) m
  have hmaps : (List.range H).map (fun oy => ((List.range W).map (fun ox =>
        (if hValidB b W L ox oy && hCovB L ox oy x y then 1 else 0)
        + (if vValidB b H L ox oy && vCovB L ox oy x y then 1 else 0))).sum)
      = (List.range H).map (fun oy =>
          (List.range W).countP (fun ox => hPlaceOK b W H L ox oy && hCovB L ox oy x y)
          + (List.range W).countP (fun ox => vPlaceOK b W H L ox oy && vCovB L ox oy x y)) := by
    apply List.map_congr_left
    intro oy hoy
    rw [sum_map_add, row_h_sum b W H L oy x y (List.mem_range.mp hoy),
      row_v_sum b W H L oy x y (List.mem_range.mp hoy)]
  calc shipStep b W H L m (x, y)
      = m (x, y) + ((List.range H).map (fun oy => ((List.range W).map (fun ox =>
          (if hValidB b W L ox oy && hCovB L ox oy x y then 1 else 0)
          + (if vValidB b H L ox oy && vCovB L ox oy x y then 1 else 0))).sum)).sum := hstep
    _ = m (x, y) + coverCountShip b W H L x y := by
        rw [hmaps, sum_map_add]; rfl

lemma gen_prob_map_eq_coverCount (b : Board) (W H : Nat) (ships : List Int)
    (x y : Nat) :
    gen_prob_map b W H ships (x, y) = coverCount b W H ships x y := by
  have h := foldl_measure (fun mm => mm (x, y)) (fun s m => shipStep b W H s.toNat m)
    (fun s => coverCountShip b W H s.toNat x y) ships
    (fun s _ m => shipStep_cover b W H s.toNat x y m) (fun _ => 0)
  calc gen_prob_map b W H ships (x, y)
      = (fun _ => (0 : Nat)) (x, y) + (ships.map (fun s => coverCountShip b W H s.toNat x y)).sum := h
    _ = coverCount b W H ships x y := by simp [coverCount]

/-- C1.  For every board and remaining-ship list, the probability map built by
`_gen_prob_map` assigns to each cell `(x, y)` exactly the number of pairs
(ship entry of the remaining list, axis-aligned placement) that fit within the
`W × H` grid, cover `(x, y)`, and lie entirely on unknown cells; the two
orientations are counted separately and a length appearing `k` times in the
list contributes `k` times. -/
theorem C1_prob_map_counts_placements (b : Board) (W H : Nat) (ships : List Int)
    (x y : Nat) :
    gen_prob_map b W H ships (x, y) = coverCount b W H ships x y :=
  gen_prob_map_eq_coverCount b W H ships x y

/-! ## Grid sum of the probability map (claim C9) -/

/-- All cells of the `W × H` grid. -/
def gridCells (W H : Nat) : List (Nat × Nat) :=
  (List.range W).flatMap (fun x => (List.range H).map (fun y => (x, y)))

/-- Sum of the probability map over the whole grid. -/
def gridSum (m : Map2) (W H : Nat) : Nat :=
  ((gridCells W H).map m).sum

/-- Number of valid horizontal placements of a length-`L` ship. -/
def hPlacementCount (b : Board) (W H L : Nat) : Nat :=
  ((List.range H).map (fun oy =>
    (List.range W).countP (fun ox => hPlaceOK b W H L ox oy))).sum

/-- Number of valid vertical placements of a length-`L` ship. -/
def vPlacementCount (b : Board) (W H L : Nat) : Nat :=
  ((List.range H).map (fun oy =>
    (List.range W).countP (fun ox => vPlaceOK b W H L ox oy))).sum

/-- No cell of the board is marked as a hit. -/
def noHits (b : Board) : Prop :=
  ∀ col ∈ b, ∀ c ∈ col, c ≠ 'x'

instance (b : Board) : Decidable (noHits b) :=
  inferInstanceAs (Decidable (∀ col ∈ b, ∀ c ∈ col, _))

lemma count_colCells (x H : Nat) (q : Nat × Nat) :
    ((List.range H).map (fun y => ((x, y) : Nat × Nat))).count q
      = if q.1 = x ∧ q.2 < H then 1 else 0 := by
  induction H with
  | zero => simp
  | succ n ih =>
    rw [List.range_succ, List.map_append, List.count_append, ih, List.map_cons,
      List.map_nil, count_singleton_pair]
    have hpair : (q = ((x, n) : Nat × Nat)) ↔ (q.1 = x ∧ q.2 = n) := by
      obtain ⟨a, c⟩ := q; simp [Prod.ext_iff]
    simp only [hpair]
    split_ifs <;> omega

lemma count_gridCells (W H : Nat) (q : Nat × Nat) :
    (gridCells W H).count q = if q.1 < W ∧ q.2 < H then 1 else 0 := by
  induction W with
  | zero => simp [gridCells]
  | succ n ih =>
    unfold gridCells at *
    rw [List.range_succ, List.flatMap_append, List.count_append, ih]
    simp only [List.flatMap_cons, List.flatMap_nil, List.append_nil]
    rw [count_colCells]
    split_ifs <;> omega

lemma sum_ind_eq_count (A : List (Nat × Nat)) (q : Nat × Nat) :
    (A.map (fun p => if p = q then (1 : Nat) else 0)).sum = A.count q := by
  induction A with
  | nil => simp
  | cons a t ih =>
    simp only [List.map_cons, List.sum_cons, List.count_cons, ih]
    by_cases h : a = q
    · subst h; simp; omega
    · have hb : (a == q) = false := by simp [beq_eq_false_iff_ne, h]
      simp [h, hb]

lemma sum_grid_count (W H : Nat) (l : List (Nat × Nat))
    (hl : ∀ q ∈ l, q.1 < W ∧ q.2 < H) :
    ((gridCells W H).map (fun p => l.count p)).sum = l.length := by
  induction l with
  | nil => simp
  | cons q t ih =>
    have hq := hl q (by simp)
    have ht : ∀ r ∈ t, r.1 < W ∧ r.2 < H := fun r hr => hl r (by simp [hr])
    have hmap : (gridCells W H).map (fun p => List.count p (q :: t))
        = (gridCells W H).map (fun p => List.count p t + if p = q then 1 else 0) := by
      apply List.map_congr_left
      intro p _
      rw [List.count_cons]
      by_cases h : p = q
      · subst h; simp
      · have hb : (q == p) = false := by
          simp only [beq_eq_false_iff_ne]
          exact fun hh => h hh.symm
        simp [h, hb]
    rw [hmap, sum_map_add, ih ht, sum_ind_eq_count, count_gridCells, if_pos hq]
    simp

lemma length_hCells (L ox oy : Nat) : (hCells L ox oy).length = L := by
  simp [hCells]

lemma length_vCells (L ox oy : Nat) : (vCells L ox oy).length = L := by
  simp [vCells]

lemma hValidB_bounds (b : Board) (W L ox oy : Nat) (hv : hValidB b W L ox oy = true)
    (H : Nat) (hoy : oy < H) : ∀ q ∈ hCells L ox oy, q.1 < W ∧ q.2 < H := by
  intro q hq
  simp only [hCells, List.mem_map, List.mem_range] at hq
  obtain ⟨s, hs, rfl⟩ := hq
  simp only [hValidB, List.all_eq_true, List.mem_range, Bool.and_eq_true,
    decide_eq_true_eq] at hv
  exact ⟨(hv s hs).1, hoy⟩

lemma vValidB_bounds (b : Board) (H L ox oy : Nat) (hv : vValidB b H L ox oy = true)
    (W : Nat) (hox : ox < W) : ∀ q ∈ vCells L ox oy, q.1 < W ∧ q.2 < H := by
  intro q hq
  simp only [vCells, List.mem_map, List.mem_range] at hq
  obtain ⟨s, hs, rfl⟩ := hq
  simp only [vValidB, List.all_eq_true, List.mem_range, Bool.and_eq_true,
    decide_eq_true_eq] at hv
  exact ⟨hox, (hv s hs).1⟩

lemma gridSum_bumpCells (l : List (Nat × Nat)) (m : Map2) (W H : Nat)
    (hl : ∀ q ∈ l, q.1 < W ∧ q.2 < H) :
    gridSum (bumpCells l m) W H = gridSum m W H + l.length := by
  unfold gridSum
  have hmap : (gridCells W H).map (bumpCells l m)
      = (gridCells W H).map (fun p => m p + l.count p) := by
    apply List.map_congr_left
    intro p _
    exact bumpCells_apply l m p
  rw [hmap, sum_map_add, sum_grid_count W H l hl]

lemma gridSum_originStep (b : Board) (W H L oy ox : Nat) (m : Map2)
    (hoy : oy < H) (hox : ox < W) :
    gridSum (originStep b W H L oy ox m) W H = gridSum m W H
      + ((if hValidB b W L ox oy then L else 0)
        + (if vValidB b H L ox oy then L else 0)) := by
  unfold originStep
  by_cases hv : hValidB b W L ox oy = true <;> by_cases vv : vValidB b H L ox oy = true
  · rw [if_pos hv, if_pos vv,
      gridSum_bumpCells _ _ _ _ (vValidB_bounds b H L ox oy vv W hox),
      gridSum_bumpCells _ _ _ _ (hValidB_bounds b W L ox oy hv H hoy),
      length_hCells, length_vCells, if_pos hv, if_pos vv]
    omega
  · rw [if_pos hv, if_neg vv,
      gridSum_bumpCells _ _ _ _ (hValidB_bounds b W L ox oy hv H hoy),
      length_hCells, if_pos hv, if_neg vv]
    omega
  · rw [if_neg hv, if_pos vv,
      gridSum_bumpCells _ _ _ _ (vValidB_bounds b H L ox oy vv W hox),
      length_vCells, if_neg hv, if_pos vv]
    omega
  · rw [if_neg hv, if_neg vv, if_neg hv, if_neg vv]
    omega

lemma sum_map_mul_left {α : Type} (l : List α) (f : α → Nat) (c : Nat) :
    (l.map (fun a => c * f a)).sum = c * (l.map f).sum := by
  induction l with
  | nil => simp
  | cons a t ih => simp only [List.map_cons, List.sum_cons, ih, Nat.mul_add]

lemma gridSum_rowStep (b : Board) (W H L oy : Nat) (m : Map2) (hoy : oy < H) :
    gridSum (rowStep b W H L oy m) W H = gridSum m W H +
      L * ((List.range W).countP (fun ox => hPlaceOK b W H L ox oy)
           + (List.range W).countP (fun ox => vPlaceOK b W H L ox oy)) := by
  have h := foldl_measure (fun mm => gridSum mm W H)
    (fun ox acc => originStep b W H L oy ox acc)
    (fun ox => (if hValidB b W L ox oy then L else 0)
      + (if vValidB b H L ox oy then L else 0))
    (List.range W)
    (fun ox hox mm => gridSum_originStep b W H L oy ox mm hoy (List.mem_range.mp hox)) m
  calc gridSum (rowStep b W H L oy m) W H
      = gridSum m W H + ((List.range W).map (fun ox =>
          (if hValidB b W L ox oy then L else 0)
          + (if vValidB b H L ox oy then L else 0))).sum := h
    _ = gridSum m W H +
        L * ((List.range W).countP (fun ox => hPlaceOK b W H L ox oy)
           + (List.range W).countP (fun ox => vPlaceOK b W H L ox oy)) := by
      rw [sum_map_add]
      have hh : ((List.range W).map (fun ox => if hValidB b W L ox oy then L else 0)).sum
          = L * (List.range W).countP (fun ox => hPlaceOK b W H L ox oy) := by
        rw [← sum_map_if_const]
        apply congrArg List.sum
        apply List.map_congr_left
        intro ox hox
        rw [hValidB_eq_hPlaceOK b W H L ox oy (List.mem_range.mp hox) hoy]
      have hv : ((List.range W).map (fun ox => if vValidB b H L ox oy then L else 0)).sum
          = L * (List.range W).countP (fun ox => vPlaceOK b W H L ox oy) := by
        rw [← sum_map_if_const]
        apply congrArg List.sum
        apply List.map_congr_left
        intro ox hox
        rw [vValidB_eq_vPlaceOK b W H L ox oy (List.mem_range.mp hox) hoy]
      rw [hh, hv, Nat.mul_add]

lemma gridSum_shipStep (b : Board) (W H L : Nat) (m : Map2) :
    gridSum (shipStep b W H L m) W H = gridSum m W H
      + L * (hPlacementCount b W H L + vPlacementCount b W H L) := by
  have h := foldl_measure (fun mm => gridSum mm W H)
    (fun oy acc => rowStep b W H L oy acc)
    (fun oy => L * ((List.range W).countP (fun ox => hPlaceOK b W H L ox oy)
           + (List.range W).countP (fun ox => vPlaceOK b W H L ox oy)))
    (List.range H)
    (fun oy hoy mm => gridSum_rowStep b W H L oy mm (List.mem_range.mp hoy)) m
  calc gridSum (shipStep b W H L m) W H
      = gridSum m W H + ((List.range H).map (fun oy =>
          L * ((List.range W).countP (fun ox => hPlaceOK b W H L ox oy)
           + (List.range W).countP (fun ox => vPlaceOK b W H L ox oy)))).sum := h
    _ = gridSum m W H + L * (hPlacementCount b W H L + vPlacementCount b W H L) := by
      rw [sum_map_mul_left, sum_map_add]
      unfold hPlacementCount vPlacementCount
      rfl

lemma gridSum_zero (W H : Nat) : gridSum (fun _ => 0) W H = 0 := by
  unfold gridSum
  induction gridCells W H with
  | nil => simp
  | cons q t ih => simp [ih]

lemma gridSum_gen_prob_map (b : Board) (W H : Nat) (ships : List Int) :
    gridSum (gen_prob_map b W H ships) W H
      = (ships.map (fun s =>
          s.toNat * (hPlacementCount b W H s.toNat + vPlacementCount b W H s.toNat))).sum := by
  have h := foldl_measure (fun mm => gridSum mm W H)
    (fun s m => shipStep b W H s.toNat m)
    (fun s => s.toNat * (hPlacementCount b W H s.toNat + vPlacementCount b W H s.toNat))
    ships
    (fun s _ m => gridSum_shipStep b W H s.toNat m) (fun _ => 0)
  calc gridSum (gen_prob_map b W H ships) W H
      = gridSum (fun _ => 0) W H + (ships.map (fun s =>
          s.toNat * (hPlacementCount b W H s.toNat + vPlacementCount b W H s.toNat))).sum := h
    _ = _ := by rw [gridSum_zero]; omega

/-- Formalisation of claim C9 exactly as stated: on hit-free boards with at
least one remaining ship every cell of the map is non-negative and the total
equals, per ship length, TWICE the number of valid fitting placements
(counted once per orientation), summed across lengths. -/
def C9claim : Prop :=
  ∀ (b : Board) (W H : Nat) (ships : List Int),
    WF W H b → noHits b → ships ≠ [] →
    (∀ x y : Nat, 0 ≤ gen_prob_map b W H ships (x, y)) ∧
    gridSum (gen_prob_map b W H ships) W H
      = (ships.map (fun s =>
          2 * (hPlacementCount b W H s.toNat + vPlacementCount b W H s.toNat))).sum

/-- C9 counterexample: a hit-free 3×3 board with the single remaining ship
of length 3 has map total 3·(3+3) = 18, not 2·(3+3) = 12. -/
theorem C9_counterexample : ¬ C9claim := by
  intro h
  have h2 := (h (mkBoard 3 3) 3 3 [3] (by decide) (by decide) (by decide)).2
  revert h2
  decide

/-- C9 (amended).  On every hit-free board with at least one remaining ship,
every cell of the probability map is non-negative, and the map total equals,
for each remaining ship length `L`, `L` times the number of valid fitting
placements (counted once per orientation), summed across the lengths. -/
theorem C9_prob_map_total (b : Board) (W H : Nat) (ships : List Int)
    (hwf : WF W H b) (hnh : noHits b) (hne : ships ≠ []) :
    (∀ x y : Nat, 0 ≤ gen_prob_map b W H ships (x, y)) ∧
    gridSum (gen_prob_map b W H ships) W H
      = (ships.map (fun s =>
          s.toNat * (hPlacementCount b W H s.toNat + vPlacementCount b W H s.toNat))).sum :=
  ⟨fun _ _ => Nat.zero_le _, gridSum_gen_prob_map b W H ships⟩

/-- Witness for C9: the amended total law evaluated on the concrete 3×3
board with ship list `[3]` (total 18 = 3·6). -/
theorem C9_prob_map_total_witness :
    WF 3 3 (mkBoard 3 3) ∧ noHits (mkBoard 3 3) ∧
    gridSum (gen_prob_map (mkBoard 3 3) 3 3 [3]) 3 3
      = (([3] : List Int).map (fun s =>
          s.toNat * (hPlacementCount (mkBoard 3 3) 3 3 s.toNat
            + vPlacementCount (mkBoard 3 3) 3 3 s.toNat))).sum :=
  ⟨by decide, by decide,
    (C9_prob_map_total (mkBoard 3 3) 3 3 [3] (by decide) (by decide) (by decide)).2⟩

/-! ## Directional hit scorer (`Battleship._gen_hit_map`) -/

/-- Python `range(a, b)` over ints. -/
def intRange (a b : Int) : List Int :=
  (List.range (b - a).toNat).map (fun (k : Nat) => a + (k : Int))

/-- Python `reversed(range(0, t))` over ints. -/
def revRange (t : Int) : List Int :=
  ((List.range t.toNat).map (fun (k : Nat) => (k : Int))).reverse

/-- Cells visited by the rightward scan of `_gen_hit_map`. -/
def rightCells (W : Nat) (tx ty : Int) : List (Int × Int) :=
  (intRange (tx + 1) W).map (fun i => (i, ty))

/-- Cells visited by the leftward scan. -/
def leftCells (tx ty : Int) : List (Int × Int) :=
  (revRange tx).map (fun i => (i, ty))

/-- Cells visited by the downward scan. -/
def downCells (H : Nat) (tx ty : Int) : List (Int × Int) :=
  (intRange (ty + 1) H).map (fun j => (tx, j))

/-- Cells visited by the upward scan. -/
def upCells (tx ty : Int) : List (Int × Int) :=
  (revRange ty).map (fun j => (tx, j))

/-- One directional scan loop of `_gen_hit_map`: visit the cells in order,
break at the first non-unknown cell, count the unknown ones; a read that
raises aborts the whole call (`none`). -/
def runScan (b : Board) : List (Int × Int) → Option Nat
  | [] => some 0
  | c :: rest =>
    match bGet b c.1 c.2 with
    | none => none
    | some ch => if ch ≠ '.' then some 0 else (runScan b rest).map (· + 1)

/-- The four direction scores computed by `_gen_hit_map`. -/
structure HitScores where
  right : Nat
  left : Nat
  down : Nat
  up : Nat
deriving DecidableEq

/-- `Battleship._gen_hit_map`: the four directional run-lengths from
`(tx, ty)`. -/
def gen_hit_map (b : Board) (W H : Nat) (tx ty : Int) : Option HitScores := do
  let r ← runScan b (rightCells W tx ty)
  let l ← runScan b (leftCells tx ty)
  let d ← runScan b (downCells H tx ty)
  let u ← runScan b (upCells tx ty)
  pure ⟨r, l, d, u⟩

/-- The dictionary returned by `_gen_hit_map`, keyed by the four adjacent
coordinates (present even when out of bounds). -/
def hit_dict (tx ty : Int) (h : HitScores) : List ((Int × Int) × Nat) :=
  [((tx + 1, ty), h.right), ((tx - 1, ty), h.left),
   ((tx, ty + 1), h.down), ((tx, ty - 1), h.up)]

lemma mem_intRange {a b i : Int} : i ∈ intRange a b ↔ a ≤ i ∧ i < b := by
  unfold intRange
  simp only [List.mem_map, List.mem_range]
  constructor
  · rintro ⟨k, hk, rfl⟩
    omega
  · rintro ⟨h1, h2⟩
    exact ⟨(i - a).toNat, by omega, by omega⟩

lemma mem_revRange {t i : Int} : i ∈ revRange t ↔ 0 ≤ i ∧ i < t := by
  unfold revRange
  simp only [List.mem_reverse, List.mem_map, List.mem_range]
  constructor
  · rintro ⟨k, hk, rfl⟩
    omega
  · rintro ⟨h1, h2⟩
    exact ⟨i.toNat, by omega, by omega⟩

lemma pyIdx_of_nonneg_lt {n : Nat} {i : Int} (h0 : 0 ≤ i) (h1 : i < n) :
    pyIdx n i = some i.toNat := by
  unfold pyIdx
  rw [if_pos h0, if_pos h1]

lemma pyGet_in_bounds {α : Type} (l : List α) (i : Int) (h0 : 0 ≤ i)
    (h1 : i < l.length) :
    pyGet l i = some (l.getD i.toNat (l.getD 0 (l.get ⟨i.toNat, by omega⟩)))
      := by
  have hlt : i.toNat < l.length := by omega
  unfold pyGet
  rw [pyIdx_of_nonneg_lt h0 h1]
  simp only [Option.some_bind]
  rw [List.get?_eq_getElem?, List.getElem?_eq_getElem hlt,
    List.getD_eq_getElem l _ hlt]

/-- On a well-formed board, the Python read agrees with the total `cell`
read at in-bounds coordinates. -/
lemma bGet_wf (b : Board) (W H : Nat) (hwf : WF W H b) (x y : Int)
    (hx0 : 0 ≤ x) (hx1 : x < W) (hy0 : 0 ≤ y) (hy1 : y < H) :
    bGet b x y = some (cell b x.toNat y.toNat) := by
  obtain ⟨hlen, hcols⟩ := hwf
  have hxlt : x.toNat < b.length := by omega
  unfold bGet
  rw [show pyGet b x = some b[x.toNat] from ?_]
  · have hcol : b[x.toNat].length = H := hcols _ (List.getElem_mem hxlt)
    have hylt : y.toNat < b[x.toNat].length := by omega
    simp only [Option.some_bind]
    rw [show pyGet b[x.toNat] y = some (b[x.toNat])[y.toNat] from ?_]
    · unfold cell
      rw [List.getD_eq_getElem b [] hxlt, List.getD_eq_getElem _ ' ' hylt]
    · unfold pyGet
      rw [pyIdx_of_nonneg_lt hy0 (by omega)]
      simp only [Option.some_bind]
      rw [List.get?_eq_getElem?, List.getElem?_eq_getElem hylt]
  · unfold pyGet
    rw [pyIdx_of_nonneg_lt hx0 (by omega)]
    simp only [Option.some_bind]
    rw [List.get?_eq_getElem?, List.getElem?_eq_getElem hxlt]

lemma runScan_spec (b : Board) (cells : List (Int × Int))
    (h : ∀ c ∈ cells, (bGet b c.1 c.2).isSome) :
    ∃ n, runScan b cells = some n ∧ n ≤ cells.length ∧
      (∀ k, k < n →
        bGet b (cells.getD k (0, 0)).1 (cells.getD k (0, 0)).2 = some '.') ∧
      (n < cells.length →
        bGet b (cells.getD n (0, 0)).1 (cells.getD n (0, 0)).2 ≠ some '.') := by
  induction cells with
  | nil =>
    exact ⟨0, rfl, Nat.le_refl 0, fun k hk => absurd hk (by omega),
      fun hlt => absurd hlt (by simp)⟩
  | cons c rest ih =>
    have hc := h c (by simp)
    cases hch : bGet b c.1 c.2 with
    | none => rw [hch] at hc; simp at hc
    | some ch =>
      by_cases hdot : ch = '.'
      · subst hdot
        obtain ⟨n, h1, h2, h3, h4⟩ := ih (fun d hd => h d (by simp [hd]))
        refine ⟨n + 1, ?_, by simp; omega, ?_, ?_⟩
        · simp [runScan, hch, h1]
        · intro k hk
          cases k with
          | zero => simpa using hch
          | succ k2 =>
            simp only [List.getD_cons_succ]
            exact h3 k2 (by omega)
        · intro hlen
          simp only [List.getD_cons_succ]
          exact h4 (by simpa using hlen)
      · refine ⟨0, ?_, Nat.zero_le _, fun k hk => absurd hk (by omega), ?_⟩
        · simp [runScan, hch, hdot]
        · intro _
          simp only [List.getD_cons_zero]
          rw [hch]
          intro hcontr
          exact hdot (by injection hcontr)

lemma length_intRange (a b : Int) : (intRange a b).length = (b - a).toNat := by
  simp [intRange]

lemma length_revRange (t : Int) : (revRange t).length = t.toNat := by
  simp [revRange]

lemma getD_intRange (a b : Int) (k : Nat) (hk : k < (b - a).toNat) :
    (intRange a b).getD k 0 = a + k := by
  have hlen : k < (intRange a b).length := by rw [length_intRange]; omega
  rw [List.getD_eq_getElem _ _ hlen]
  unfold intRange
  rw [List.getElem_map]
  congr 1
  rw [List.getElem_range]

lemma getD_revRange (t : Int) (k : Nat) (hk : k < t.toNat) :
    (revRange t).getD k 0 = t - 1 - k := by
  have hlen : k < (revRange t).length := by rw [length_revRange]; omega
  rw [List.getD_eq_getElem _ _ hlen]
  unfold revRange
  rw [List.getElem_reverse, List.getElem_map, List.getElem_range]
  simp only [List.length_map, List.length_range]
  omega

lemma getD_map_pair (l : List Int) (f : Int → Int × Int) (k : Nat)
    (hk : k < l.length) :
    (l.map f).getD k (0, 0) = f (l.getD k 0) := by
  have hlen : k < (l.map f).length := by simp; omega
  rw [List.getD_eq_getElem _ _ hlen, List.getElem_map, List.getD_eq_getElem _ _ hk]

lemma runScan_right (b : Board) (W H tx ty : Nat) (hwf : WF W H b)
    (htx : tx < W) (hty : ty < H) :
    ∃ n, runScan b (rightCells W tx ty) = some n ∧ tx + 1 + n ≤ W ∧
      (∀ k, k < n → cell b (tx + 1 + k) ty = '.') ∧
      (tx + 1 + n < W → cell b (tx + 1 + n) ty ≠ '.') := by
  have hreads : ∀ c ∈ rightCells W tx ty, (bGet b c.1 c.2).isSome := by
    intro c hc
    unfold rightCells at hc
    simp only [List.mem_map] at hc
    obtain ⟨i, hi, rfl⟩ := hc
    rw [mem_intRange] at hi
    rw [bGet_wf b W H hwf i ty (by omega) (by omega) (by omega) (by omega)]
    simp
  obtain ⟨n, h1, h2, h3, h4⟩ := runScan_spec b _ hreads
  have hlen : (rightCells W tx ty).length = W - (tx + 1) := by
    unfold rightCells
    rw [List.length_map, length_intRange]
    omega
  have hgd : ∀ k : Nat, k < W - (tx + 1) →
      (rightCells W tx ty).getD k (0, 0) = ((tx : Int) + 1 + k, (ty : Int)) := by
    intro k hk
    unfold rightCells
    rw [getD_map_pair _ _ k (by rw [length_intRange]; omega),
      getD_intRange _ _ k (by omega)]
  refine ⟨n, h1, by omega, ?_, ?_⟩
  · intro k hk
    have := h3 k hk
    rw [hgd k (by omega)] at this
    rw [bGet_wf b W H hwf ((tx : Int) + 1 + k) ty (by omega) (by omega)
      (by omega) (by omega)] at this
    have hc1 : ((tx : Int) + 1 + k).toNat = tx + 1 + k := by omega
    have hc2 : ((ty : Int)).toNat = ty := by omega
    rw [hc1, hc2] at this
    exact Option.some.inj this
  · intro hlt
    have := h4 (by omega)
    rw [hgd n (by omega)] at this
    intro heq
    apply this
    rw [bGet_wf b W H hwf ((tx : Int) + 1 + n) ty (by omega) (by omega)
      (by omega) (by omega)]
    have hc1 : ((tx : Int) + 1 + n).toNat = tx + 1 + n := by omega
    have hc2 : ((ty : Int)).toNat = ty := by omega
    rw [hc1, hc2, heq]

lemma runScan_left (b : Board) (W H tx ty : Nat) (hwf : WF W H b)
    (htx : tx < W) (hty : ty < H) :
    ∃ n, runScan b (leftCells tx ty) = some n ∧ n ≤ tx ∧
      (∀ k, k < n → cell b (tx - 1 - k) ty = '.') ∧
      (n < tx → cell b (tx - 1 - n) ty ≠ '.') := by
  have hreads : ∀ c ∈ leftCells tx ty, (bGet b c.1 c.2).isSome := by
    intro c hc
    unfold leftCells at hc
    simp only [List.mem_map] at hc
    obtain ⟨i, hi, rfl⟩ := hc
    rw [mem_revRange] at hi
    rw [bGet_wf b W H hwf i ty (by omega) (by omega) (by omega) (by omega)]
    simp
  obtain ⟨n, h1, h2, h3, h4⟩ := runScan_spec b _ hreads
  have hlen : (leftCells tx ty).length = tx := by
    unfold leftCells
    rw [List.length_map, length_revRange]
    omega
  have hgd : ∀ k : Nat, k < tx →
      (leftCells tx ty).getD k (0, 0) = ((tx : Int) - 1 - k, (ty : Int)) := by
    intro k hk
    unfold leftCells
    rw [getD_map_pair _ _ k (by rw [length_revRange]; omega),
      getD_revRange _ k (by omega)]
  refine ⟨n, h1, by omega, ?_, ?_⟩
  · intro k hk
    have := h3 k hk
    rw [hgd k (by omega)] at this
    rw [bGet_wf b W H hwf ((tx : Int) - 1 - k) ty (by omega) (by omega)
      (by omega) (by omega)] at this
    have hc1 : ((tx : Int) - 1 - k).toNat = tx - 1 - k := by omega
    have hc2 : ((ty : Int)).toNat = ty := by omega
    rw [hc1, hc2] at this
    exact Option.some.inj this
  · intro hlt
    have := h4 (by omega)
    rw [hgd n (by omega)] at this
    intro heq
    apply this
    rw [bGet_wf b W H hwf ((tx : Int) - 1 - n) ty (by omega) (by omega)
      (by omega) (by omega)]
    have hc1 : ((tx : Int) - 1 - n).toNat = tx - 1 - n := by omega
    have hc2 : ((ty : Int)).toNat = ty := by omega
    rw [hc1, hc2, heq]

lemma runScan_down (b : Board) (W H tx ty : Nat) (hwf : WF W H b)
    (htx : tx < W) (hty : ty < H) :
    ∃ n, runScan b (downCells H tx ty) = some n ∧ ty + 1 + n ≤ H ∧
      (∀ k, k < n → cell b tx (ty + 1 + k) = '.') ∧
      (ty + 1 + n < H → cell b tx (ty + 1 + n) ≠ '.') := by
  have hreads : ∀ c ∈ downCells H tx ty, (bGet b c.1 c.2).isSome := by
    intro c hc
    unfold downCells at hc
    simp only [List.mem_map] at hc
    obtain ⟨j, hj, rfl⟩ := hc
    rw [mem_intRange] at hj
    rw [bGet_wf b W H hwf tx j (by omega) (by omega) (by omega) (by omega)]
    simp
  obtain ⟨n, h1, h2, h3, h4⟩ := runScan_spec b _ hreads
  have hlen : (downCells H tx ty).length = H - (ty + 1) := by
    unfold downCells
    rw [List.length_map, length_intRange]
    omega
  have hgd : ∀ k : Nat, k < H - (ty + 1) →
      (downCells H tx ty).getD k (0, 0) = ((tx : Int), (ty : Int) + 1 + k) := by
    intro k hk
    unfold downCells
    rw [getD_map_pair _ _ k (by rw [length_intRange]; omega),
      getD_intRange _ _ k (by omega)]
  refine ⟨n, h1, by omega, ?_, ?_⟩
  · intro k hk
    have := h3 k hk
    rw [hgd k (by omega)] at this
    rw [bGet_wf b W H hwf tx ((ty : Int) + 1 + k) (by omega) (by omega)
      (by omega) (by omega)] at this
    have hc1 : ((tx : Int)).toNat = tx := by omega
    have hc2 : ((ty : Int) + 1 + k).toNat = ty + 1 + k := by omega
    rw [hc1, hc2] at this
    exact Option.some.inj this
  · intro hlt
    have := h4 (by omega)
    rw [hgd n (by omega)] at this
    intro heq
    apply this
    rw [bGet_wf b W H hwf tx ((ty : Int) + 1 + n) (by omega) (by omega)
      (by omega) (by omega)]
    have hc1 : ((tx : Int)).toNat = tx := by omega
    have hc2 : ((ty : Int) + 1 + n).toNat = ty + 1 + n := by omega
    rw [hc1, hc2, heq]

lemma runScan_up (b : Board) (W H tx ty : Nat) (hwf : WF W H b)
    (htx : tx < W) (hty : ty < H) :
    ∃ n, runScan b (upCells tx ty) = some n ∧ n ≤ ty ∧
      (∀ k, k < n → cell b tx (ty - 1 - k) = '.') ∧
      (n < ty → cell b tx (ty - 1 - n) ≠ '.') := by
  have hreads : ∀ c ∈ upCells tx ty, (bGet b c.1 c.2).isSome := by
    intro c hc
    unfold upCells at hc
    simp only [List.mem_map] at hc
    obtain ⟨j, hj, rfl⟩ := hc
    rw [mem_revRange] at hj
    rw [bGet_wf b W H hwf tx j (by omega) (by omega) (by omega) (by omega)]
    simp
  obtain ⟨n, h1, h2, h3, h4⟩ := runScan_spec b _ hreads
  have hlen : (upCells tx ty).length = ty := by
    unfold upCells
    rw [List.length_map, length_revRange]
    omega
  have hgd : ∀ k : Nat, k < ty →
      (upCells tx ty).getD k (0, 0) = ((tx : Int), (ty : Int) - 1 - k) := by
    intro k hk
    unfold upCells
    rw [getD_map_pair _ _ k (by rw [length_revRange]; omega),
      getD_revRange _ k (by omega)]
  refine ⟨n, h1, by omega, ?_, ?_⟩
  · intro k hk
    have := h3 k hk
    rw [hgd k (by omega)] at this
    rw [bGet_wf b W H hwf tx ((ty : Int) - 1 - k) (by omega) (by omega)
      (by omega) (by omega)] at this
    have hc1 : ((tx : Int)).toNat = tx := by omega
    have hc2 : ((ty : Int) - 1 - k).toNat = ty - 1 - k := by omega
    rw [hc1, hc2] at this
    exact Option.some.inj this
  · intro hlt
    have := h4 (by omega)
    rw [hgd n (by omega)] at this
    intro heq
    apply this
    rw [bGet_wf b W H hwf tx ((ty : Int) - 1 - n) (by omega) (by omega)
      (by omega) (by omega)]
    have hc1 : ((tx : Int)).toNat = tx := by omega
    have hc2 : ((ty : Int) - 1 - n).toNat = ty - 1 - n := by omega
    rw [hc1, hc2, heq]

lemma lookup_hit_dict_right (tx ty : Int) (h : HitScores) :
    (hit_dict tx ty h).lookup (tx + 1, ty) = some h.right := by
  simp [hit_dict, List.lookup]

lemma lookup_hit_dict_left (tx ty : Int) (h : HitScores) :
    (hit_dict tx ty h).lookup (tx - 1, ty) = some h.left := by
  have h1 : (((tx - 1, ty) : Int × Int) == (tx + 1, ty)) = false := by
    simp only [beq_eq_false_iff_ne, Ne, Prod.mk.injEq, not_and]
    intro hcontr
    omega
  simp [hit_dict, List.lookup, h1]

lemma lookup_hit_dict_down (tx ty : Int) (h : HitScores) :
    (hit_dict tx ty h).lookup (tx, ty + 1) = some h.down := by
  have h1 : (((tx, ty + 1) : Int × Int) == (tx + 1, ty)) = false := by
    simp only [beq_eq_false_iff_ne, Ne, Prod.mk.injEq, not_and]
    intro hcontr
    omega
  have h2 : (((tx, ty + 1) : Int × Int) == (tx - 1, ty)) = false := by
    simp only [beq_eq_false_iff_ne, Ne, Prod.mk.injEq, not_and]
    intro hcontr
    omega
  simp [hit_dict, List.lookup, h1, h2]

lemma lookup_hit_dict_up (tx ty : Int) (h : HitScores) :
    (hit_dict tx ty h).lookup (tx, ty - 1) = some h.up := by
  have h1 : (((tx, ty - 1) : Int × Int) == (tx + 1, ty)) = false := by
    simp only [beq_eq_false_iff_ne, Ne, Prod.mk.injEq, not_and]
    intro hcontr
    omega
  have h2 : (((tx, ty - 1) : Int × Int) == (tx - 1, ty)) = false := by
    simp only [beq_eq_false_iff_ne, Ne, Prod.mk.injEq, not_and]
    intro hcontr
    omega
  have h3 : (((tx, ty - 1) : Int × Int) == (tx, ty + 1)) = false := by
    simp only [beq_eq_false_iff_ne, Ne, Prod.mk.injEq, not_and]
    intro hcontr
    omega
  simp [hit_dict, List.lookup, h1, h2, h3]

/-- The 10×10 board of the spec scenario: a single hit registered at
`(3, 3)`, every other cell unknown. -/
def scenarioBoard : Board :=
  (bSet (mkBoard 10 10) 3 3 'x').getD (mkBoard 10 10)

/-- C2.  For every in-bounds coordinate `(tx, ty)` of a well-formed board,
`_gen_hit_map` succeeds and returns the dictionary whose keys are exactly the
four adjacent coordinates (present even when out of bounds); the value at each
key is the number of consecutive unknown cells strictly in that direction
starting adjacent to `(tx, ty)`, stopping at the first non-unknown cell or the
grid boundary without counting the stopping cell.  In particular, for the
single hit at `(3, 3)` on an otherwise empty 10×10 board the values are
right = 6, left = 3, down = 6, up = 3. -/
theorem C2_hit_map_characterisation (W H : Nat) (b : Board) (tx ty : Nat)
    (hwf : WF W H b) (htx : tx < W) (hty : ty < H) :
    ∃ hs : HitScores, gen_hit_map b W H tx ty = some hs ∧
      (hit_dict tx ty hs).map Prod.fst =
        [((tx : Int) + 1, (ty : Int)), ((tx : Int) - 1, (ty : Int)),
         ((tx : Int), (ty : Int) + 1), ((tx : Int), (ty : Int) - 1)] ∧
      (hit_dict tx ty hs).lookup ((tx : Int) + 1, (ty : Int)) = some hs.right ∧
      (hit_dict tx ty hs).lookup ((tx : Int) - 1, (ty : Int)) = some hs.left ∧
      (hit_dict tx ty hs).lookup ((tx : Int), (ty : Int) + 1) = some hs.down ∧
      (hit_dict tx ty hs).lookup ((tx : Int), (ty : Int) - 1) = some hs.up ∧
      (tx + 1 + hs.right ≤ W ∧ (∀ k, k < hs.right → cell b (tx + 1 + k) ty = '.') ∧
        (tx + 1 + hs.right < W → cell b (tx + 1 + hs.right) ty ≠ '.')) ∧
      (hs.left ≤ tx ∧ (∀ k, k < hs.left → cell b (tx - 1 - k) ty = '.') ∧
        (hs.left < tx → cell b (tx - 1 - hs.left) ty ≠ '.')) ∧
      (ty + 1 + hs.down ≤ H ∧ (∀ k, k < hs.down → cell b tx (ty + 1 + k) = '.') ∧
        (ty + 1 + hs.down < H → cell b tx (ty + 1 + hs.down) ≠ '.')) ∧
      (hs.up ≤ ty ∧ (∀ k, k < hs.up → cell b tx (ty - 1 - k) = '.') ∧
        (hs.up < ty → cell b tx (ty - 1 - hs.up) ≠ '.')) ∧
      gen_hit_map scenarioBoard 10 10 3 3 = some ⟨6, 3, 6, 3⟩ := by
  obtain ⟨r, hr1, hr2, hr3, hr4⟩ := runScan_right b W H tx ty hwf htx hty
  obtain ⟨l, hl1, hl2, hl3, hl4⟩ := runScan_left b W H tx ty hwf htx hty
  obtain ⟨d, hd1, hd2, hd3, hd4⟩ := runScan_down b W H tx ty hwf htx hty
  obtain ⟨u, hu1, hu2, hu3, hu4⟩ := runScan_up b W H tx ty hwf htx hty
  refine ⟨⟨r, l, d, u⟩, ?_, rfl, lookup_hit_dict_right _ _ _,
    lookup_hit_dict_left _ _ _, lookup_hit_dict_down _ _ _, lookup_hit_dict_up _ _ _,
    ⟨hr2, hr3, hr4⟩, ⟨hl2, hl3, hl4⟩, ⟨hd2, hd3, hd4⟩, ⟨hu2, hu3, hu4⟩, by decide⟩
  simp [gen_hit_map, hr1, hl1, hd1, hu1]

/-- Witness for C2: the theorem applied to the concrete spec scenario, a
single hit at `(3, 3)` on an otherwise empty 10×10 board. -/
theorem C2_hit_map_characterisation_witness :
    WF 10 10 scenarioBoard ∧ (3 < 10) ∧
    (∃ hs : HitScores, gen_hit_map scenarioBoard 10 10 3 3 = some hs) ∧
    gen_hit_map scenarioBoard 10 10 3 3 = some ⟨6, 3, 6, 3⟩ :=
  ⟨by decide, by decide, by
    obtain ⟨hs, h1, _⟩ := C2_hit_map_characterisation 10 10 scenarioBoard 3 3
      (by decide) (by decide) (by decide)
    exact ⟨hs, h1⟩, by decide⟩

/-! ## Game state and the stable sort used by `predict` -/

/-- The fields of the `Battleship` object consumed by the game logic. -/
structure GameState where
  ships : List Int
  mode : String
  width : Nat
  height : Nat
  board : Board
  hit_mem : List (Int × Int)
deriving DecidableEq

/-- `Battleship.__init__` as invoked by `main`: `MODE = "n"`, 10×10 grid,
empty board, empty hit memory. -/
def mkGame (ships : List Int) : GameState :=
  ⟨ships, "n", 10, 10, mkBoard 10 10, []⟩

/-- Insert an element after every element that compares `le` to it.  Folding
this over a list is a stable sort; Python `list.sort` is stable, and a stable
sort's output is determined uniquely by the key order, so this models the
in-place sorts of `predict` exactly. -/
def sInsert (le : α → α → Bool) (a : α) : List α → List α
  | [] => [a]
  | b :: l => if le b a then b :: sInsert le a l else a :: b :: l

/-- Stable insertion sort. -/
def sSort (le : α → α → Bool) (l : List α) : List α :=
  l.foldl (fun acc a => sInsert le a acc) []

lemma mem_sInsert (le : α → α → Bool) (a x : α) (l : List α) :
    x ∈ sInsert le a l ↔ x = a ∨ x ∈ l := by
  induction l with
  | nil => simp [sInsert]
  | cons b t ih =>
    unfold sInsert
    split
    · simp only [List.mem_cons, ih]
      tauto
    · simp only [List.mem_cons]

lemma sInsert_pairwise (le : α → α → Bool)
    (htot : ∀ x y, le x y = true ∨ le y x = true)
    (htrans : ∀ x y z, le x y = true → le y z = true → le x z = true)
    (a : α) (l : List α) (h : l.Pairwise (fun x y => le x y = true)) :
    (sInsert le a l).Pairwise (fun x y => le x y = true) := by
  induction l with
  | nil => simp [sInsert]
  | cons b t ih =>
    rw [List.pairwise_cons] at h
    obtain ⟨hb, ht⟩ := h
    unfold sInsert
    by_cases hba : le b a = true
    · rw [if_pos hba, List.pairwise_cons]
      refine ⟨?_, ih ht⟩
      intro y hy
      rw [mem_sInsert] at hy
      rcases hy with rfl | hy
      · exact hba
      · exact hb y hy
    · rw [if_neg hba, List.pairwise_cons]
      have hab : le a b = true := by
        rcases htot a b with h1 | h1
        · exact h1
        · exact absurd h1 hba
      refine ⟨?_, List.pairwise_cons.mpr ⟨hb, ht⟩⟩
      intro y hy
      rcases List.mem_cons.mp hy with rfl | hy
      · exact hab
      · exact htrans a b y hab (hb y hy)

lemma mem_foldl_sInsert (le : α → α → Bool) (l : List α) :
    ∀ (acc : List α) (x : α),
      x ∈ l.foldl (fun acc a => sInsert le a acc) acc ↔ x ∈ l ∨ x ∈ acc := by
  induction l with
  | nil => simp
  | cons a t ih =>
    intro acc x
    simp only [List.foldl_cons, ih, mem_sInsert, List.mem_cons]
    tauto

lemma mem_sSort (le : α → α → Bool) (l : List α) (x : α) :
    x ∈ sSort le l ↔ x ∈ l := by
  unfold sSort
  rw [mem_foldl_sInsert]
  simp

lemma sSort_pairwise (le : α → α → Bool)
    (htot : ∀ x y, le x y = true ∨ le y x = true)
    (htrans : ∀ x y z, le x y = true → le y z = true → le x z = true)
    (l : List α) :
    (sSort le l).Pairwise (fun x y => le x y = true) := by
  unfold sSort
  have hgen : ∀ (acc : List α), acc.Pairwise (fun x y => le x y = true) →
      (l.foldl (fun acc a => sInsert le a acc) acc).Pairwise
        (fun x y => le x y = true) := by
    induction l with
    | nil => intro acc hacc; simpa using hacc
    | cons a t ih =>
      intro acc hacc
      simp only [List.foldl_cons]
      exact ih _ (sInsert_pairwise le htot htrans a acc hacc)
  exact hgen [] (by simp)

lemma length_sInsert (le : α → α → Bool) (a : α) (l : List α) :
    (sInsert le a l).length = l.length + 1 := by
  induction l with
  | nil => simp [sInsert]
  | cons b t ih =>
    unfold sInsert
    split <;> simp [ih]

lemma length_sSort (le : α → α → Bool) (l : List α) :
    (sSort le l).length = l.length := by
  unfold sSort
  have hgen : ∀ (acc : List α),
      (l.foldl (fun acc a => sInsert le a acc) acc).length = l.length + acc.length := by
    induction l with
    | nil => intro acc; simp
    | cons a t ih =>
      intro acc
      simp only [List.foldl_cons]
      rw [ih, length_sInsert]
      simp only [List.length_cons]
      omega
  have := hgen []
  simpa using this

/-! ## Prediction engine (`Battleship.predict`) -/

/-- `np.max(self.prob_map)`: maximum entry over the grid (entries are
naturals, so folding `max` from 0 gives the array maximum). -/
def probMax (m : Map2) (W H : Nat) : Nat :=
  ((gridCells W H).map m).foldl max 0

/-- `np.argwhere(self.prob_map == np.max(self.prob_map))`: the cells
achieving the maximum, in array order. -/
def probCandidates (s : GameState) : List (Nat × Nat) :=
  (gridCells s.width s.height).filter (fun p =>
    gen_prob_map s.board s.width s.height s.ships p
      == probMax (gen_prob_map s.board s.width s.height s.ships) s.width s.height)

/-- Sort key `coord[1]` of the vertical branch of `predict`. -/
def leY (a b : Int × Int) : Bool := decide (a.2 ≤ b.2)

/-- Sort key `coord[0]` of the horizontal branch of `predict`. -/
def leX (a b : Int × Int) : Bool := decide (a.1 ≤ b.1)

/-- The hit-map dictionary built by `predict` when Hit Memory is nonempty,
together with the (possibly re-ordered, since Python sorts in place) hit
memory.  With one pending hit this is the full four-direction dictionary; with
two or more it holds the two line-extension entries, the subscript
`_gen_hit_map(...)[(x, y+1)]` being the `down` score and so on (see the
`lookup_hit_dict` lemmas).  `none` models an exception escaping
`_gen_hit_map`. -/
def hitMapPairs (s : GameState) :
    Option (List (Int × Int) × List ((Int × Int) × Nat)) :=
  match s.hit_mem with
  | [] => none
  | [h0] =>
    (gen_hit_map s.board s.width s.height h0.1 h0.2).map
      (fun hs => ([h0], hit_dict h0.1 h0.2 hs))
  | h0 :: h1 :: rest =>
    if h0.1 = ((h0 :: h1 :: rest).getLastD h0).1 then
      let sorted := sSort leY (h0 :: h1 :: rest)
      let lower := sorted.getLastD h0
      let upper := sorted.headD h0
      (gen_hit_map s.board s.width s.height lower.1 lower.2).bind (fun hsLow =>
        (gen_hit_map s.board s.width s.height upper.1 upper.2).map (fun hsUp =>
          (sorted, [((lower.1, lower.2 + 1), hsLow.down),
                    ((upper.1, upper.2 - 1), hsUp.up)])))
    else
      let sorted := sSort leX (h0 :: h1 :: rest)
      let lh := sorted.getLastD h0
      let rh := sorted.headD h0
      (gen_hit_map s.board s.width s.height lh.1 lh.2).bind (fun hsL =>
        (gen_hit_map s.board s.width s.height rh.1 rh.2).map (fun hsR =>
          (sorted, [((lh.1 + 1, lh.2), hsL.right),
                    ((rh.1 - 1, rh.2), hsR.left)])))

/-- `max(hit_map.values())`. -/
def dictMax (pairs : List ((Int × Int) × Nat)) : Nat :=
  (pairs.map Prod.snd).foldl max 0

/-- `[key for key, value in hit_map.items() if value == dict_max]`. -/
def dictArgmax (pairs : List ((Int × Int) × Nat)) : List (Int × Int) :=
  (pairs.filter (fun kv => kv.2 == dictMax pairs)).map Prod.fst

/-- The candidate list `predict` draws from with `random.choice`, paired with
the hit memory as left by the call (Python sorts it in place). -/
def predCandidates (s : GameState) :
    Option (List (Int × Int) × List (Int × Int)) :=
  if s.hit_mem.isEmpty then
    some (s.hit_mem,
      (probCandidates s).map (fun p => ((p.1 : Int), (p.2 : Int))))
  else
    (hitMapPairs s).map (fun pr => (pr.1, dictArgmax pr.2))

/-! ## Board updates (`update`, `_clear_tile`, `_clear_edges`, `sink`) -/

/-- `Battleship.update`: write the reported result at the predicted tile and
append a hit to hit memory. -/
def update (s : GameState) (px py : Int) (res : Char) : Option GameState :=
  (bSet s.board px py res).map (fun b2 =>
    { s with board := b2,
             hit_mem := if res == 'x' then s.hit_mem ++ [(px, py)] else s.hit_mem })

/-- The state mutation of `predict` once candidate `c` has been drawn: the
hit memory is left as the call sorted it and the chosen tile is marked
`"+"`. -/
def applyPredict (s : GameState) (c : Int × Int) : Option GameState :=
  match predCandidates s with
  | none => none
  | some (hm, _) =>
    (bSet s.board c.1 c.2 '+').map (fun b1 =>
      { s with board := b1, hit_mem := hm })

/-- One full turn of the main loop: `predict` chooses candidate `c`, marks it
`"+"`, then `update` records the reported result. -/
def applyTurn (s : GameState) (c : Int × Int) (res : Char) : Option GameState :=
  (applyPredict s c).bind (fun s1 => update s1 c.1 c.2 res)

/-- `Battleship._clear_tile`: read the tile (IndexError propagates, negative
indices wrap), and overwrite with a miss unless it is sunk. -/
def clear_tile (b : Board) (tx ty : Int) : Option Board :=
  match bGet b tx ty with
  | none => none
  | some c => if c ≠ '#' then bSet b tx ty 'o' else some b

/-- The eight neighbour offsets cleared by `_clear_edges`, in source order. -/
def edgeOffsets : List (Int × Int) :=
  [(1, 0), (-1, 0), (0, 1), (0, -1), (1, 1), (-1, -1), (1, -1), (-1, 1)]

/-- `Battleship._clear_edges`: clear the eight neighbours in order; an
IndexError aborts, keeping the clears already applied. -/
def clear_edges (b : Board) (tx ty : Int) : Except Board Board :=
  edgeOffsets.foldl
    (fun acc d =>
      match acc with
      | .error e => .error e
      | .ok bb =>
        match clear_tile bb (tx + d.1) (ty + d.2) with
        | none => .error bb
        | some b2 => .ok b2)
    (.ok b)

/-- One iteration of the `while` loop of `sink` at span tile `t`: mark the
tile sunk, remove it from hit memory (`list.remove` raises ValueError when
absent), then clear the edges in no-touching mode.  The `error` value carries
the object state at the moment the exception is raised. -/
def sinkTileStep (s : GameState) (t : Int × Int) : Except GameState GameState :=
  match bSet s.board t.1 t.2 '#' with
  | none => .error s
  | some b1 =>
    let s1 : GameState := { s with board := b1 }
    if s1.hit_mem.contains t then
      let s2 : GameState := { s1 with hit_mem := s1.hit_mem.erase t }
      if s2.mode = "n" then
        match clear_edges s2.board t.1 t.2 with
        | .error e => .error { s2 with board := e }
        | .ok b2 => .ok { s2 with board := b2 }
      else .ok s2
    else .error s1

/-- The `while` loop of `sink` over the span tiles in traversal order. -/
def sinkTiles (s : GameState) : List (Int × Int) → Except GameState GameState
  | [] => .ok s
  | t :: ts =>
    match sinkTileStep s t with
    | .error e => .error e
    | .ok s2 => sinkTiles s2 ts

/-- Tiles of the vertical span at column `x` from row `a` to row `b`
inclusive (`a ≤ b`). -/
def spanV (x a b : Int) : List (Int × Int) :=
  (List.range (b - a + 1).toNat).map (fun (k : Nat) => (x, a + (k : Int)))

/-- Tiles of the horizontal span at row `y` from column `a` to column `b`
inclusive (`a ≤ b`). -/
def spanH (y a b : Int) : List (Int × Int) :=
  (List.range (b - a + 1).toNat).map (fun (k : Nat) => (a + (k : Int), y))

/-- `Battleship.sink`: equal x-coordinates select the vertical branch,
anything else the horizontal branch; endpoints are normalised (the source
swaps `start` and `end` when `start > end`, written here with `min`/`max`),
the span is traversed, one matching length is deleted from the ship list
(silently skipped when absent), and the game-over flag is returned. -/
def sink (s : GameState) (sx sy ex ey : Int) :
    Except GameState (GameState × Bool) :=
  if sx = ex then
    match sinkTiles s (spanV sx (min sy ey) (max sy ey)) with
    | .error e => .error e
    | .ok s2 =>
      .ok ({ s2 with ships := s2.ships.erase (max sy ey - min sy ey + 1) },
        (s2.ships.erase (max sy ey - min sy ey + 1)).isEmpty)
  else
    match sinkTiles s (spanH sy (min sx ex) (max sx ex)) with
    | .error e => .error e
    | .ok s2 =>
      .ok ({ s2 with ships := s2.ships.erase (max sx ex - min sx ex + 1) },
        (s2.ships.erase (max sx ex - min sx ex + 1)).isEmpty)

/-- Reachable game states: a fresh game as created by `main` (always mode
`"n"` on the 10×10 grid, any typed-in ship list), extended by whole turns of
the interactive loop with any rolls of `random.choice`, any reported results,
and any successfully processed sink reports. -/
inductive Reach : GameState → Prop where
  | init : ∀ ships : List Int, Reach (mkGame ships)
  | turn : ∀ (s : GameState) (c : Int × Int) (res : Char) (s' : GameState)
      (hm : List (Int × Int)) (cs : List (Int × Int)),
      Reach s → predCandidates s = some (hm, cs) → c ∈ cs →
      (res = 'x' ∨ res = 'o') → applyTurn s c res = some s' → Reach s'
  | sunk : ∀ (s : GameState) (sx sy ex ey : Int) (s' : GameState) (over : Bool),
      Reach s → sink s sx sy ex ey = Except.ok (s', over) → Reach s'

/-! ## Sink: ship-list bookkeeping (claims C5, C6, C7) -/

/-- Length of the span reported to `sink`, as the source computes it after
endpoint normalisation. -/
def sunkLen (sx sy ex ey : Int) : Int :=
  if sx = ex then max sy ey - min sy ey + 1 else max sx ex - min sx ex + 1

lemma sinkTileStep_ships (s : GameState) (t : Int × Int) (s2 : GameState)
    (h : sinkTileStep s t = Except.ok s2) :
    s2.ships = s.ships ∧ s2.mode = s.mode ∧ s2.width = s.width ∧
      s2.height = s.height := by
  unfold sinkTileStep at h
  split at h
  · simp at h
  · simp only at h
    split at h
    · split at h
      · split at h
        · simp at h
        · injection h with h
          subst h
          exact ⟨rfl, rfl, rfl, rfl⟩
      · injection h with h
        subst h
        exact ⟨rfl, rfl, rfl, rfl⟩
    · simp at h

lemma sinkTiles_ships (tiles : List (Int × Int)) :
    ∀ (s s2 : GameState), sinkTiles s tiles = Except.ok s2 →
      s2.ships = s.ships ∧ s2.mode = s.mode ∧ s2.width = s.width ∧
        s2.height = s.height := by
  induction tiles with
  | nil =>
    intro s s2 h
    unfold sinkTiles at h
    injection h with h
    subst h
    exact ⟨rfl, rfl, rfl, rfl⟩
  | cons t ts ih =>
    intro s s2 h
    unfold sinkTiles at h
    split at h
    · simp at h
    · rename_i s3 hs3
      obtain ⟨h1, h2, h3, h4⟩ := ih s3 s2 h
      obtain ⟨g1, g2, g3, g4⟩ := sinkTileStep_ships s t s3 hs3
      exact ⟨h1.trans g1, h2.trans g2, h3.trans g3, h4.trans g4⟩

/-- On success, `sink` replaces the ship list by `erase` of the span length
and reports game over exactly when the resulting list is empty. -/
lemma sink_ok_spec (s : GameState) (sx sy ex ey : Int) (s2 : GameState)
    (over : Bool) (h : sink s sx sy ex ey = Except.ok (s2, over)) :
    s2.ships = s.ships.erase (sunkLen sx sy ex ey) ∧
      (over = true ↔ s2.ships = []) ∧ s2.mode = s.mode := by
  unfold sink at h
  by_cases hx : sx = ex
  · rw [if_pos hx] at h
    split at h
    · simp at h
    · rename_i s3 hs3
      injection h with h
      rw [Prod.mk.injEq] at h
      obtain ⟨hp1, hp2⟩ := h
      obtain ⟨hships, hmode, _, _⟩ := sinkTiles_ships _ _ _ hs3
      refine ⟨?_, ?_, ?_⟩
      · rw [← hp1]
        simp only [hships]
        unfold sunkLen
        rw [if_pos hx]
      · rw [← hp1, ← hp2]
        simp only [List.isEmpty_iff]
      · rw [← hp1]
        exact hmode
  · rw [if_neg hx] at h
    split at h
    · simp at h
    · rename_i s3 hs3
      injection h with h
      rw [Prod.mk.injEq] at h
      obtain ⟨hp1, hp2⟩ := h
      obtain ⟨hships, hmode, _, _⟩ := sinkTiles_ships _ _ _ hs3
      refine ⟨?_, ?_, ?_⟩
      · rw [← hp1]
        simp only [hships]
        unfold sunkLen
        rw [if_neg hx]
      · rw [← hp1, ← hp2]
        simp only [List.isEmpty_iff]
      · rw [← hp1]
        exact hmode

instance {ε α : Type} [DecidableEq ε] [DecidableEq α] :
    DecidableEq (Except ε α) := fun a b =>
  match a, b with
  | .error e1, .error e2 =>
    decidable_of_iff (e1 = e2)
      ⟨fun h => by rw [h], fun h => by injection h⟩
  | .error _, .ok _ => isFalse (fun h => Except.noConfusion h)
  | .ok _, .error _ => isFalse (fun h => Except.noConfusion h)
  | .ok a1, .ok a2 =>
    decidable_of_iff (a1 = a2)
      ⟨fun h => by rw [h], fun h => by injection h⟩

/-- C5.  Contrary to the claim, the edge-clearing tile write does NOT
silently ignore out-of-bounds coordinates: an index equal to the width (as
produced by `_clear_edges` for a sunk tile on the right or bottom edge)
raises an IndexError, and a negative index wraps to the opposite edge and
overwrites that in-bounds cell with a miss. -/
theorem C5_clear_tile_python_indexing :
    clear_tile (mkBoard 10 10) 10 5 = none ∧
    (∃ b2, clear_tile (mkBoard 10 10) (-1) 5 = some b2 ∧
      b2 ≠ mkBoard 10 10 ∧ cell b2 9 5 = 'o') ∧
    (∃ e, clear_edges (mkBoard 10 10) 9 5 = Except.error e) := by
  refine ⟨by decide,
    ⟨(bSet (mkBoard 10 10) (-1) 5 'o').getD [], by decide, by decide, by decide⟩,
    ⟨mkBoard 10 10, by decide⟩⟩

/-- Formalisation of claim C6 exactly as stated: a successful `sink` must
have found a matching ship length (failure is signalled otherwise), exactly
one matching entry is removed, and the game-over flag is true iff the list
is empty afterwards. -/
def C6claim : Prop :=
  ∀ (s : GameState) (sx sy ex ey : Int) (s2 : GameState) (over : Bool),
    sink s sx sy ex ey = Except.ok (s2, over) →
    sunkLen sx sy ex ey ∈ s.ships ∧
    s2.ships.count (sunkLen sx sy ex ey) + 1 = s.ships.count (sunkLen sx sy ex ey) ∧
    (over = true ↔ s2.ships = [])

/-- C6 counterexample: sinking a span of length 2 while the only remaining
ship has length 5 succeeds silently with the ship list unchanged, instead of
signalling the consistency violation. -/
theorem C6_counterexample : ¬ C6claim := by
  intro h
  have hok : ∃ p, sink ⟨[5], "t", 4, 4, mkBoard 4 4, [(0, 0), (0, 1)]⟩ 0 0 0 1
      = Except.ok p := ⟨_, rfl⟩
  obtain ⟨⟨s2, over⟩, hp⟩ := hok
  have h6 := h ⟨[5], "t", 4, 4, mkBoard 4 4, [(0, 0), (0, 1)]⟩ 0 0 0 1 s2 over hp
  exact absurd h6.1 (by decide)

/-- C6 (amended).  On success `sink` removes exactly one entry equal to the
span length when one exists, silently leaves the ship list unchanged when no
entry matches (no error is signalled), and returns true iff the remaining
list is empty afterwards. -/
theorem C6_sink_ship_removal (s : GameState) (sx sy ex ey : Int)
    (s2 : GameState) (over : Bool)
    (h : sink s sx sy ex ey = Except.ok (s2, over)) :
    s2.ships = s.ships.erase (sunkLen sx sy ex ey) ∧
    (sunkLen sx sy ex ey ∈ s.ships →
      s2.ships.count (sunkLen sx sy ex ey) + 1
        = s.ships.count (sunkLen sx sy ex ey)) ∧
    (sunkLen sx sy ex ey ∉ s.ships → s2.ships = s.ships) ∧
    (over = true ↔ s2.ships = []) := by
  obtain ⟨h1, h2, _⟩ := sink_ok_spec s sx sy ex ey s2 over h
  refine ⟨h1, ?_, ?_, h2⟩
  · intro hmem
    rw [h1, List.count_erase_self]
    have : 0 < s.ships.count (sunkLen sx sy ex ey) := List.count_pos_iff.mpr hmem
    omega
  · intro hnot
    rw [h1, List.erase_of_not_mem hnot]

/-- Witness for C6 (amended): a successful sink of a length-2 span with ship
list `[2, 5]` removes the single matching entry. -/
theorem C6_sink_ship_removal_witness :
    ∃ (s2 : GameState) (over : Bool),
      sink ⟨[2, 5], "t", 4, 4, mkBoard 4 4, [(1, 1), (1, 2)]⟩ 1 1 1 2
        = Except.ok (s2, over) ∧ s2.ships = [5] ∧ over = false := by
  have hok : ∃ p, sink ⟨[2, 5], "t", 4, 4, mkBoard 4 4, [(1, 1), (1, 2)]⟩ 1 1 1 2
      = Except.ok p := ⟨_, rfl⟩
  obtain ⟨⟨s2, over⟩, hp⟩ := hok
  have h6 := C6_sink_ship_removal _ 1 1 1 2 s2 over hp
  refine ⟨s2, over, hp, ?_, ?_⟩
  · rw [h6.1]
    decide
  · have h2 := h6.2.2.2
    have hne : s2.ships ≠ [] := by
      rw [h6.1]
      decide
    cases over with
    | false => rfl
    | true => exact absurd (h2.mp rfl) hne

/-- Formalisation of claim C7 exactly as stated: endpoints sharing neither
coordinate make `sink` surface a consistency violation. -/
def C7claim : Prop :=
  ∀ (s : GameState) (sx sy ex ey : Int), sx ≠ ex → sy ≠ ey →
    ∃ e, sink s sx sy ex ey = Except.error e

/-- C7 counterexample: endpoints `(0, 0)` and `(2, 3)` share neither x nor y,
yet `sink` silently succeeds, treating the report as the horizontal span
`(0, 0)`–`(2, 0)`. -/
theorem C7_counterexample : ¬ C7claim := by
  intro h
  obtain ⟨e, he⟩ := h ⟨[3], "t", 4, 4, mkBoard 4 4, [(0, 0), (1, 0), (2, 0)]⟩
    0 0 2 3 (by decide) (by decide)
  have hok : ∃ p, sink ⟨[3], "t", 4, 4, mkBoard 4 4, [(0, 0), (1, 0), (2, 0)]⟩
      0 0 2 3 = Except.ok p := ⟨_, rfl⟩
  obtain ⟨p, hp⟩ := hok
  rw [hp] at he
  simp at he

/-- C7 (amended).  When the endpoints' x-coordinates differ, `sink` takes the
horizontal branch unconditionally — the second endpoint's y is ignored
entirely, so a diagonal report behaves exactly like the horizontal report at
the first endpoint's row, with the span length taken from the x-extent; no
violation is signalled. -/
theorem C7_sink_diagonal_as_horizontal (s : GameState) (sx sy ex ey : Int)
    (hx : sx ≠ ex) :
    sink s sx sy ex ey = sink s sx sy ex sy ∧
    (∀ (s2 : GameState) (over : Bool),
      sink s sx sy ex ey = Except.ok (s2, over) →
      s2.ships = s.ships.erase (max sx ex - min sx ex + 1)) := by
  constructor
  · unfold sink
    rw [if_neg hx, if_neg hx]
  · intro s2 over h
    have := (sink_ok_spec s sx sy ex ey s2 over h).1
    rw [this]
    unfold sunkLen
    rw [if_neg hx]

/-- Witness for C7 (amended): the diagonal report `(0, 0)`–`(2, 3)` equals
the horizontal report `(0, 0)`–`(2, 0)` and erases length 3. -/
theorem C7_sink_diagonal_as_horizontal_witness :
    sink ⟨[3], "t", 4, 4, mkBoard 4 4, [(0, 0), (1, 0), (2, 0)]⟩ 0 0 2 3
      = sink ⟨[3], "t", 4, 4, mkBoard 4 4, [(0, 0), (1, 0), (2, 0)]⟩ 0 0 2 0 ∧
    ∃ (s2 : GameState) (over : Bool),
      sink ⟨[3], "t", 4, 4, mkBoard 4 4, [(0, 0), (1, 0), (2, 0)]⟩ 0 0 2 3
        = Except.ok (s2, over) ∧ s2.ships = [] := by
  have h7 := C7_sink_diagonal_as_horizontal
    ⟨[3], "t", 4, 4, mkBoard 4 4, [(0, 0), (1, 0), (2, 0)]⟩ 0 0 2 3 (by decide)
  have hok : ∃ p, sink ⟨[3], "t", 4, 4, mkBoard 4 4, [(0, 0), (1, 0), (2, 0)]⟩
      0 0 2 3 = Except.ok p := ⟨_, rfl⟩
  obtain ⟨⟨s2, over⟩, hp⟩ := hok
  refine ⟨h7.1, s2, over, hp, ?_⟩
  rw [h7.2 s2 over hp]
  decide

/-! ## Write locality on well-formed boards -/

/-- Canonical in-bounds coordinates. -/
def InB (W H : Nat) (q : Int × Int) : Prop :=
  0 ≤ q.1 ∧ q.1 < W ∧ 0 ≤ q.2 ∧ q.2 < H

instance (W H : Nat) (q : Int × Int) : Decidable (InB W H q) :=
  inferInstanceAs (Decidable (_ ∧ _ ∧ _ ∧ _))

/-- Coordinates whose eight neighbours are all in bounds. -/
def Interior (W H : Nat) (q : Int × Int) : Prop :=
  1 ≤ q.1 ∧ q.1 + 1 < W ∧ 1 ≤ q.2 ∧ q.2 + 1 < H

instance (W H : Nat) (q : Int × Int) : Decidable (Interior W H q) :=
  inferInstanceAs (Decidable (_ ∧ _ ∧ _ ∧ _))

lemma bSet_wf_spec (b : Board) (W H : Nat) (hwf : WF W H b) (x y : Int)
    (c : Char) (hx0 : 0 ≤ x) (hx1 : x < W) (hy0 : 0 ≤ y) (hy1 : y < H) :
    ∃ b2, bSet b x y c = some b2 ∧ WF W H b2 ∧
      (∀ u v : Int, 0 ≤ u → u < W → 0 ≤ v → v < H →
        bGet b2 u v = if u = x ∧ v = y then some c else bGet b u v) := by
  obtain ⟨hlen, hcols⟩ := hwf
  have hxlt : x.toNat < b.length := by omega
  have hcol : b[x.toNat].length = H := hcols _ (List.getElem_mem hxlt)
  have hylt : y.toNat < b[x.toNat].length := by omega
  have hwf2 : WF W H (b.set x.toNat (b[x.toNat].set y.toNat c)) := by
    constructor
    · rw [List.length_set]; exact hlen
    · intro col hmem
      rcases List.mem_or_eq_of_mem_set hmem with h | h
      · exact hcols col h
      · rw [h, List.length_set]; exact hcol
  refine ⟨b.set x.toNat (b[x.toNat].set y.toNat c), ?_, hwf2, ?_⟩
  · unfold bSet pySet
    rw [pyIdx_of_nonneg_lt hx0 (by omega), Option.some_bind,
      List.get?_eq_getElem?, List.getElem?_eq_getElem hxlt, Option.some_bind,
      pyIdx_of_nonneg_lt hy0 (by rw [hcol]; omega)]
    simp
  · intro u v hu0 hu1 hv0 hv1
    rw [bGet_wf _ W H hwf2 u v hu0 hu1 hv0 hv1,
      bGet_wf b W H ⟨hlen, hcols⟩ u v hu0 hu1 hv0 hv1]
    by_cases huv : u = x ∧ v = y
    · obtain ⟨rfl, rfl⟩ := huv
      rw [if_pos ⟨rfl, rfl⟩]
      unfold cell
      have h1 : u.toNat < (b.set u.toNat (b[u.toNat].set v.toNat c)).length := by
        rw [List.length_set]; omega
      rw [List.getD_eq_getElem _ _ h1, List.getElem_set_self]
      have h2 : v.toNat < (b[u.toNat].set v.toNat c).length := by
        rw [List.length_set]; omega
      rw [List.getD_eq_getElem _ _ h2, List.getElem_set_self]
    · rw [if_neg huv]
      unfold cell
      have h1 : u.toNat < (b.set x.toNat (b[x.toNat].set y.toNat c)).length := by
        rw [List.length_set]; omega
      have h1b : u.toNat < b.length := by omega
      rw [List.getD_eq_getElem _ _ h1, List.getD_eq_getElem b _ h1b]
      by_cases hux : u = x
      · subst hux
        have hvy : v ≠ y := fun hv => huv ⟨rfl, hv⟩
        rw [List.getElem_set_self]
        have h2 : v.toNat < (b[u.toNat].set y.toNat c).length := by
          rw [List.length_set]; omega
        have h2b : v.toNat < b[u.toNat].length := by omega
        rw [List.getD_eq_getElem _ _ h2, List.getD_eq_getElem _ _ h2b]
        rw [List.getElem_set_ne (by omega)]
      · rw [List.getElem_set_ne (by omega)]

/-- A cell already resolved by clearing or sinking: miss or sunk. -/
def GoodCell (b : Board) (q : Int × Int) : Prop :=
  bGet b q.1 q.2 = some 'o' ∨ bGet b q.1 q.2 = some '#'

lemma clear_tile_spec (b : Board) (W H : Nat) (hwf : WF W H b) (x y : Int)
    (hx0 : 0 ≤ x) (hx1 : x < W) (hy0 : 0 ≤ y) (hy1 : y < H) :
    ∃ b2, clear_tile b x y = some b2 ∧ WF W H b2 ∧
      (∀ u v : Int, 0 ≤ u → u < W → 0 ≤ v → v < H →
        bGet b2 u v =
          if u = x ∧ v = y then
            (if bGet b x y = some '#' then some '#' else some 'o')
          else bGet b u v) := by
  have hread := bGet_wf b W H hwf x y hx0 hx1 hy0 hy1
  by_cases hh : cell b x.toNat y.toNat = '#'
  · refine ⟨b, ?_, hwf, ?_⟩
    · unfold clear_tile
      rw [hread, hh]
      simp
    · intro u v hu0 hu1 hv0 hv1
      by_cases huv : u = x ∧ v = y
      · obtain ⟨rfl, rfl⟩ := huv
        rw [if_pos ⟨rfl, rfl⟩, if_pos (by rw [hread, hh]), hread, hh]
      · rw [if_neg huv]
  · obtain ⟨b2, hb2, hwf2, hvals⟩ :=
      bSet_wf_spec b W H hwf x y 'o' hx0 hx1 hy0 hy1
    refine ⟨b2, ?_, hwf2, ?_⟩
    · unfold clear_tile
      rw [hread]
      show (if cell b x.toNat y.toNat ≠ '#' then bSet b x y 'o' else some b) = some b2
      rw [if_pos hh]
      exact hb2
    · intro u v hu0 hu1 hv0 hv1
      rw [hvals u v hu0 hu1 hv0 hv1]
      by_cases huv : u = x ∧ v = y
      · rw [if_pos huv, if_pos huv,
          if_neg (by rw [hread]; intro hc; exact hh (Option.some.inj hc))]
      · rw [if_neg huv, if_neg huv]

lemma clear_fold_spec (W H : Nat) (x y : Int) (offs : List (Int × Int)) :
    ∀ (b : Board), WF W H b →
      (∀ d ∈ offs, InB W H (x + d.1, y + d.2)) →
      ∃ b2, offs.foldl
          (fun acc d =>
            match acc with
            | .error e => .error e
            | .ok bb =>
              match clear_tile bb (x + d.1) (y + d.2) with
              | none => .error bb
              | some nb => .ok nb) (Except.ok b) = Except.ok b2 ∧
        WF W H b2 ∧
        (∀ u v : Int, 0 ≤ u → u < W → 0 ≤ v → v < H →
          (∀ d ∈ offs, (u, v) ≠ (x + d.1, y + d.2)) → bGet b2 u v = bGet b u v) ∧
        (∀ d ∈ offs, GoodCell b2 (x + d.1, y + d.2)) ∧
        (∀ u v : Int, 0 ≤ u → u < W → 0 ≤ v → v < H →
          bGet b u v = some '#' → bGet b2 u v = some '#') ∧
        (∀ u v : Int, 0 ≤ u → u < W → 0 ≤ v → v < H →
          GoodCell b (u, v) → GoodCell b2 (u, v)) := by
  induction offs with
  | nil =>
    intro b hwf _
    exact ⟨b, rfl, hwf, fun u v _ _ _ _ _ => rfl, by simp,
      fun u v _ _ _ _ h => h, fun u v _ _ _ _ h => h⟩
  | cons d rest ih =>
    intro b hwf hin
    have hd := hin d (by simp)
    unfold InB at hd
    obtain ⟨hd1, hd2, hd3, hd4⟩ := hd
    obtain ⟨b1, hb1, hwf1, hvals1⟩ :=
      clear_tile_spec b W H hwf (x + d.1) (y + d.2) hd1 hd2 hd3 hd4
    obtain ⟨b2, hb2, hwf2, hframe2, hgood2, hhash2, hgpres2⟩ :=
      ih b1 hwf1 (fun d2 hmem => hin d2 (by simp [hmem]))
    refine ⟨b2, ?_, hwf2, ?_, ?_, ?_, ?_⟩
    · simp only [List.foldl_cons]
      rw [hb1]
      exact hb2
    · intro u v hu0 hu1 hv0 hv1 hne
      rw [hframe2 u v hu0 hu1 hv0 hv1 (fun d2 h2 => hne d2 (by simp [h2])),
        hvals1 u v hu0 hu1 hv0 hv1,
        if_neg (fun hc => hne d (by simp) (by rw [hc.1, hc.2]))]
    · intro d2 hd2mem
      rcases List.mem_cons.mp hd2mem with rfl | hmem
      · apply hgpres2 _ _ hd1 hd2 hd3 hd4
        unfold GoodCell
        rw [hvals1 _ _ hd1 hd2 hd3 hd4, if_pos ⟨rfl, rfl⟩]
        by_cases hsh : bGet b (x + d2.1) (y + d2.2) = some '#'
        · rw [if_pos hsh]
          right
          rfl
        · rw [if_neg hsh]
          left
          rfl
      · exact hgood2 d2 hmem
    · intro u v hu0 hu1 hv0 hv1 hsh
      apply hhash2 u v hu0 hu1 hv0 hv1
      rw [hvals1 u v hu0 hu1 hv0 hv1]
      by_cases huv : u = x + d.1 ∧ v = y + d.2
      · rw [if_pos huv]
        rw [huv.1, huv.2] at hsh
        rw [if_pos hsh]
      · rw [if_neg huv]
        exact hsh
    · intro u v hu0 hu1 hv0 hv1 hg
      apply hgpres2 u v hu0 hu1 hv0 hv1
      unfold GoodCell at hg ⊢
      rw [hvals1 u v hu0 hu1 hv0 hv1]
      by_cases huv : u = x + d.1 ∧ v = y + d.2
      · rw [if_pos huv]
        by_cases hsh : bGet b (x + d.1) (y + d.2) = some '#'
        · rw [if_pos hsh]
          right
          rfl
        · rw [if_neg hsh]
          left
          rfl
      · rw [if_neg huv]
        exact hg

lemma clear_edges_spec (b : Board) (W H : Nat) (hwf : WF W H b) (x y : Int)
    (hint : Interior W H (x, y)) :
    ∃ b2, clear_edges b x y = Except.ok b2 ∧ WF W H b2 ∧
      (∀ u v : Int, 0 ≤ u → u < W → 0 ≤ v → v < H →
        (∀ d ∈ edgeOffsets, (u, v) ≠ (x + d.1, y + d.2)) →
        bGet b2 u v = bGet b u v) ∧
      (∀ d ∈ edgeOffsets, GoodCell b2 (x + d.1, y + d.2)) ∧
      (∀ u v : Int, 0 ≤ u → u < W → 0 ≤ v → v < H →
        bGet b u v = some '#' → bGet b2 u v = some '#') ∧
      (∀ u v : Int, 0 ≤ u → u < W → 0 ≤ v → v < H →
        GoodCell b (u, v) → GoodCell b2 (u, v)) := by
  unfold Interior at hint
  obtain ⟨hi1, hi2, hi3, hi4⟩ := hint
  have hin : ∀ d ∈ edgeOffsets, InB W H (x + d.1, y + d.2) := by
    intro d hd
    unfold edgeOffsets at hd
    simp only [List.mem_cons, List.not_mem_nil, or_false] at hd
    unfold InB
    rcases hd with rfl | rfl | rfl | rfl | rfl | rfl | rfl | rfl <;>
      exact ⟨by dsimp only at hi1 hi2 hi3 hi4 ⊢; omega,
        by dsimp only at hi1 hi2 hi3 hi4 ⊢; omega,
        by dsimp only at hi1 hi2 hi3 hi4 ⊢; omega,
        by dsimp only at hi1 hi2 hi3 hi4 ⊢; omega⟩
  exact clear_fold_spec W H x y edgeOffsets b hwf hin

lemma sinkTileStep_ok_spec (s : GameState) (t : Int × Int)
    (hmode : s.mode = "n") (hwf : WF s.width s.height s.board)
    (hint : Interior s.width s.height t) (hmem : t ∈ s.hit_mem) :
    ∃ s2, sinkTileStep s t = Except.ok s2 ∧
      WF s.width s.height s2.board ∧
      s2.ships = s.ships ∧ s2.mode = s.mode ∧ s2.width = s.width ∧
      s2.height = s.height ∧
      s2.hit_mem = s.hit_mem.erase t ∧
      bGet s2.board t.1 t.2 = some '#' ∧
      (∀ u v : Int, 0 ≤ u → u < s.width → 0 ≤ v → v < s.height →
        (u, v) ≠ t → (∀ d ∈ edgeOffsets, (u, v) ≠ (t.1 + d.1, t.2 + d.2)) →
        bGet s2.board u v = bGet s.board u v) ∧
      (∀ d ∈ edgeOffsets, GoodCell s2.board (t.1 + d.1, t.2 + d.2)) ∧
      (∀ u v : Int, 0 ≤ u → u < s.width → 0 ≤ v → v < s.height →
        bGet s.board u v = some '#' → bGet s2.board u v = some '#') ∧
      (∀ u v : Int, 0 ≤ u → u < s.width → 0 ≤ v → v < s.height →
        GoodCell s.board (u, v) → GoodCell s2.board (u, v)) := by
  have htb : InB s.width s.height t := by
    unfold Interior at hint
    unfold InB
    exact ⟨by omega, by omega, by omega, by omega⟩
  unfold InB at htb
  obtain ⟨ht1, ht2, ht3, ht4⟩ := htb
  obtain ⟨b1, hb1, hwf1, hvals1⟩ :=
    bSet_wf_spec s.board s.width s.height hwf t.1 t.2 '#' ht1 ht2 ht3 ht4
  have hint1 : Interior s.width s.height (t.1, t.2) := by
    obtain ⟨a, c⟩ := t
    exact hint
  obtain ⟨b2, hb2, hwf2, hframe2, hgood2, hhash2, hgpres2⟩ :=
    clear_edges_spec b1 s.width s.height hwf1 t.1 t.2 hint1
  have hcontains : (({ s with board := b1 } : GameState).hit_mem.contains t) = true := by
    simp only
    simp [hmem]
  refine ⟨{ s with board := b2, hit_mem := s.hit_mem.erase t }, ?_, hwf2,
    rfl, rfl, rfl, rfl, rfl, ?_, ?_, ?_, ?_, ?_⟩
  · unfold sinkTileStep
    rw [hb1]
    simp only [Option.some_bind]
    rw [hcontains]
    simp only [if_pos rfl, hmode, if_pos]
    rw [hb2]
  · have h1 : bGet b1 t.1 t.2 = some '#' := by
      rw [hvals1 t.1 t.2 ht1 ht2 ht3 ht4, if_pos ⟨rfl, rfl⟩]
    exact hhash2 t.1 t.2 ht1 ht2 ht3 ht4 h1
  · intro u v hu0 hu1 hv0 hv1 hne hned
    have h2 := hframe2 u v hu0 hu1 hv0 hv1 hned
    rw [h2, hvals1 u v hu0 hu1 hv0 hv1,
      if_neg (fun hc => hne (by obtain ⟨a, c⟩ := t; exact Prod.ext hc.1 hc.2))]
  · exact hgood2
  · intro u v hu0 hu1 hv0 hv1 hsh
    apply hhash2 u v hu0 hu1 hv0 hv1
    rw [hvals1 u v hu0 hu1 hv0 hv1]
    by_cases huv : u = t.1 ∧ v = t.2
    · rw [if_pos huv]
    · rw [if_neg huv]
      exact hsh
  · intro u v hu0 hu1 hv0 hv1 hg
    apply hgpres2 u v hu0 hu1 hv0 hv1
    unfold GoodCell at hg ⊢
    rw [hvals1 u v hu0 hu1 hv0 hv1]
    by_cases huv : u = t.1 ∧ v = t.2
    · rw [if_pos huv]
      right
      rfl
    · rw [if_neg huv]
      exact hg

lemma sinkTileStep_fail_spec (s : GameState) (t : Int × Int)
    (hwf : WF s.width s.height s.board)
    (htb : InB s.width s.height t) (habs : t ∉ s.hit_mem) :
    ∃ e, sinkTileStep s t = Except.error e ∧
      WF s.width s.height e.board ∧
      e.ships = s.ships ∧ e.mode = s.mode ∧ e.width = s.width ∧
      e.height = s.height ∧ e.hit_mem = s.hit_mem ∧
      bGet e.board t.1 t.2 = some '#' ∧
      (∀ u v : Int, 0 ≤ u → u < s.width → 0 ≤ v → v < s.height →
        (u, v) ≠ t → bGet e.board u v = bGet s.board u v) ∧
      (∀ u v : Int, 0 ≤ u → u < s.width → 0 ≤ v → v < s.height →
        bGet s.board u v = some '#' → bGet e.board u v = some '#') ∧
      (∀ u v : Int, 0 ≤ u → u < s.width → 0 ≤ v → v < s.height →
        GoodCell s.board (u, v) → GoodCell e.board (u, v)) := by
  unfold InB at htb
  obtain ⟨ht1, ht2, ht3, ht4⟩ := htb
  obtain ⟨b1, hb1, hwf1, hvals1⟩ :=
    bSet_wf_spec s.board s.width s.height hwf t.1 t.2 '#' ht1 ht2 ht3 ht4
  have hcontains : (({ s with board := b1 } : GameState).hit_mem.contains t) = false := by
    simp only
    simp [habs]
  refine ⟨{ s with board := b1 }, ?_, hwf1, rfl, rfl, rfl, rfl, rfl, ?_, ?_, ?_, ?_⟩
  · unfold sinkTileStep
    rw [hb1]
    simp only [Option.some_bind]
    rw [hcontains]
    simp
  · rw [hvals1 t.1 t.2 ht1 ht2 ht3 ht4, if_pos ⟨rfl, rfl⟩]
  · intro u v hu0 hu1 hv0 hv1 hne
    rw [hvals1 u v hu0 hu1 hv0 hv1,
      if_neg (fun hc => hne (by obtain ⟨a, c⟩ := t; exact Prod.ext hc.1 hc.2))]
  · intro u v hu0 hu1 hv0 hv1 hsh
    rw [hvals1 u v hu0 hu1 hv0 hv1]
    by_cases huv : u = t.1 ∧ v = t.2
    · rw [if_pos huv]
    · rw [if_neg huv]
      exact hsh
  · intro u v hu0 hu1 hv0 hv1 hg
    unfold GoodCell at hg ⊢
    rw [hvals1 u v hu0 hu1 hv0 hv1]
    by_cases huv : u = t.1 ∧ v = t.2
    · rw [if_pos huv]
      right
      rfl
    · rw [if_neg huv]
      exact hg

lemma interior_offset_InB (W H : Nat) (t : Int × Int)
    (hint : Interior W H t) (d : Int × Int) (hd : d ∈ edgeOffsets) :
    InB W H (t.1 + d.1, t.2 + d.2) := by
  unfold Interior at hint
  obtain ⟨h1, h2, h3, h4⟩ := hint
  unfold edgeOffsets at hd
  simp only [List.mem_cons, List.not_mem_nil, or_false] at hd
  unfold InB
  rcases hd with rfl | rfl | rfl | rfl | rfl | rfl | rfl | rfl <;>
    exact ⟨by dsimp only; omega, by dsimp only; omega,
      by dsimp only; omega, by dsimp only; omega⟩

lemma getD_mem_of_lt {l : List (Int × Int)} {j : Nat} (hj : j < l.length) :
    l.getD j (0, 0) ∈ l := by
  rw [List.getD_eq_getElem _ _ hj]
  exact List.getElem_mem hj

lemma sinkTiles_fail_spec (W H : Nat) (tiles : List (Int × Int)) :
    ∀ (s : GameState) (k : Nat),
      s.mode = "n" → s.width = W → s.height = H → WF W H s.board →
      tiles.Nodup → k < tiles.length →
      (∀ j, j < k → tiles.getD j (0, 0) ∈ s.hit_mem) →
      tiles.getD k (0, 0) ∉ s.hit_mem →
      (∀ j, j < k → Interior W H (tiles.getD j (0, 0))) →
      InB W H (tiles.getD k (0, 0)) →
      ∃ e, sinkTiles s tiles = Except.error e ∧
        e.ships = s.ships ∧ e.mode = s.mode ∧
        e.hit_mem = (tiles.take k).foldl (fun acc t => acc.erase t) s.hit_mem ∧
        (∀ j, j ≤ k →
          bGet e.board (tiles.getD j (0, 0)).1 (tiles.getD j (0, 0)).2 = some '#') ∧
        (∀ j, j < k → ∀ d ∈ edgeOffsets,
          GoodCell e.board
            ((tiles.getD j (0, 0)).1 + d.1, (tiles.getD j (0, 0)).2 + d.2)) ∧
        (∀ u v : Int, 0 ≤ u → u < W → 0 ≤ v → v < H →
          bGet s.board u v = some '#' → bGet e.board u v = some '#') ∧
        (∀ u v : Int, 0 ≤ u → u < W → 0 ≤ v → v < H →
          GoodCell s.board (u, v) → GoodCell e.board (u, v)) ∧
        (∀ u v : Int, 0 ≤ u → u < W → 0 ≤ v → v < H →
          (∀ j, j ≤ k → (u, v) ≠ tiles.getD j (0, 0)) →
          (∀ j, j < k → ∀ d ∈ edgeOffsets,
            (u, v) ≠ ((tiles.getD j (0, 0)).1 + d.1, (tiles.getD j (0, 0)).2 + d.2)) →
          bGet e.board u v = bGet s.board u v) := by
  induction tiles with
  | nil =>
    intro s k _ _ _ _ _ hk _ _ _ _
    exact absurd hk (by simp)
  | cons t ts ih =>
    intro s k hmode hW hH hwf hnodup hk hpres habs hintj hinbk
    cases k with
    | zero =>
      have habs0 : t ∉ s.hit_mem := by simpa using habs
      have hinb0 : InB s.width s.height t := by
        rw [hW, hH]
        simpa using hinbk
      have hwfs : WF s.width s.height s.board := by rw [hW, hH]; exact hwf
      obtain ⟨e, he, hwfe, hships, hmodee, hWe, hHe, hhm, hmark, hframe1,
        hhash1, hgood1⟩ := sinkTileStep_fail_spec s t hwfs hinb0 habs0
      refine ⟨e, ?_, hships, hmodee, ?_, ?_, ?_, ?_, ?_, ?_⟩
      · unfold sinkTiles
        rw [he]
      · simpa using hhm
      · intro j hj
        have hj0 : j = 0 := by omega
        subst hj0
        simpa using hmark
      · intro j hj
        exact absurd hj (by omega)
      · intro u v hu0 hu1 hv0 hv1 hsh
        rw [hW, hH] at hhash1
        exact hhash1 u v hu0 hu1 hv0 hv1 hsh
      · intro u v hu0 hu1 hv0 hv1 hg
        rw [hW, hH] at hgood1
        exact hgood1 u v hu0 hu1 hv0 hv1 hg
      · intro u v hu0 hu1 hv0 hv1 hne _
        rw [hW, hH] at hframe1
        apply hframe1 u v hu0 hu1 hv0 hv1
        have := hne 0 (Nat.le_refl 0)
        simpa using this
    | succ k2 =>
      have hmem0 : t ∈ s.hit_mem := by
        have := hpres 0 (by omega)
        simpa using this
      have hint0 : Interior s.width s.height t := by
        rw [hW, hH]
        have := hintj 0 (by omega)
        simpa using this
      have hwfs : WF s.width s.height s.board := by rw [hW, hH]; exact hwf
      obtain ⟨s2, hs2, hwf2, hships2, hmode2, hW2, hH2, hhm2, hmark2, hframe2,
        hgood2edge, hhash2, hgpres2⟩ := sinkTileStep_ok_spec s t hmode hwfs hint0 hmem0
      have hnods : ts.Nodup := (List.nodup_cons.mp hnodup).2
      have htnotin : t ∉ ts := (List.nodup_cons.mp hnodup).1
      have hklen : k2 < ts.length := by
        simp only [List.length_cons] at hk
        omega
      have hpres2 : ∀ j, j < k2 → ts.getD j (0, 0) ∈ s2.hit_mem := by
        intro j hj
        rw [hhm2]
        have hmemj : ts.getD j (0, 0) ∈ s.hit_mem := by
          have := hpres (j + 1) (by omega)
          simpa using this
        have hnej : ts.getD j (0, 0) ≠ t := by
          intro hcontr
          exact htnotin (hcontr ▸ getD_mem_of_lt (by omega))
        exact (List.mem_erase_of_ne hnej).mpr hmemj
      have habs2 : ts.getD k2 (0, 0) ∉ s2.hit_mem := by
        rw [hhm2]
        intro hc
        exact habs (by simpa using List.mem_of_mem_erase hc)
      have hintj2 : ∀ j, j < k2 → Interior W H (ts.getD j (0, 0)) := by
        intro j hj
        have := hintj (j + 1) (by omega)
        simpa using this
      have hinbk2 : InB W H (ts.getD k2 (0, 0)) := by
        simpa using hinbk
      have hwf2w : WF W H s2.board := by
        rw [hW, hH] at hwf2
        exact hwf2
      obtain ⟨e, he, hships, hmodee, hhm, hmark, hgood, hhash, hgpres, hframe⟩ :=
        ih s2 k2 (hmode2.trans hmode) (hW2.trans hW) (hH2.trans hH) hwf2w hnods
          hklen hpres2 habs2 hintj2 hinbk2
      rw [hW, hH] at hframe2 hhash2 hgpres2
      refine ⟨e, ?_, hships.trans hships2, hmodee.trans hmode2, ?_, ?_, ?_, ?_, ?_, ?_⟩
      · unfold sinkTiles
        rw [hs2]
        exact he
      · rw [hhm, hhm2, List.take_succ_cons, List.foldl_cons]
      · intro j hj
        cases j with
        | zero =>
          have hinterior : Interior W H t := by
            rw [hW, hH] at hint0
            exact hint0
          have hinb0 : InB W H t := by
            unfold Interior at hinterior
            unfold InB
            exact ⟨by omega, by omega, by omega, by omega⟩
          unfold InB at hinb0
          have := hhash t.1 t.2 hinb0.1 hinb0.2.1 hinb0.2.2.1 hinb0.2.2.2 hmark2
          simpa using this
        | succ j2 =>
          have := hmark j2 (by omega)
          simpa using this
      · intro j hj d hd
        cases j with
        | zero =>
          have hg0 := hgood2edge d hd
          have hinbd := interior_offset_InB W H t (by rw [hW, hH] at hint0; exact hint0) d hd
          unfold InB at hinbd
          have := hgpres (t.1 + d.1) (t.2 + d.2) hinbd.1 hinbd.2.1 hinbd.2.2.1
            hinbd.2.2.2 hg0
          simpa using this
        | succ j2 =>
          have := hgood j2 (by omega) d hd
          simpa using this
      · intro u v hu0 hu1 hv0 hv1 hsh
        exact hhash u v hu0 hu1 hv0 hv1 (hhash2 u v hu0 hu1 hv0 hv1 hsh)
      · intro u v hu0 hu1 hv0 hv1 hg
        exact hgpres u v hu0 hu1 hv0 hv1 (hgpres2 u v hu0 hu1 hv0 hv1 hg)
      · intro u v hu0 hu1 hv0 hv1 hne hned
        have hstep := hframe2 u v hu0 hu1 hv0 hv1
          (by have := hne 0 (by omega); simpa using this)
          (fun d hd => by have := hned 0 (by omega) d hd; simpa using this)
        rw [← hstep]
        apply hframe u v hu0 hu1 hv0 hv1
        · intro j hj
          have := hne (j + 1) (by omega)
          simpa using this
        · intro j hj d hd
          have := hned (j + 1) (by omega) d hd
          simpa using this

lemma spanV_nodup (x a b : Int) : (spanV x a b).Nodup := by
  unfold spanV
  apply List.Nodup.map ?_ (List.nodup_range _)
  intro k1 k2 hk
  rw [Prod.mk.injEq] at hk
  omega

lemma spanH_nodup (y a b : Int) : (spanH y a b).Nodup := by
  unfold spanH
  apply List.Nodup.map ?_ (List.nodup_range _)
  intro k1 k2 hk
  rw [Prod.mk.injEq] at hk
  omega

/-- Helper projecting the exceptional state out of a `sink` result. -/
def exceptErrD (r : Except GameState (GameState × Bool)) (d : GameState) :
    GameState :=
  match r with
  | .error e => e
  | .ok _ => d

/-- Formalisation of claim C10 exactly as stated: when the reported span
contains a tile absent from Hit Memory (the first such tile at position `k`),
`sink` raises the lookup error only upon reaching that tile, after marking it
and every earlier span tile sunk — and, on the strict reading of the claim,
after clearing the neighbouring edges of that tile AND every earlier one. -/
def C10claim : Prop :=
  ∀ (s : GameState) (sx sy ex ey : Int) (tiles : List (Int × Int)) (k : Nat),
    s.mode = "n" → WF s.width s.height s.board →
    tiles = (if sx = ex then spanV sx (min sy ey) (max sy ey)
             else spanH sy (min sx ex) (max sx ex)) →
    k < tiles.length →
    (∀ j, j < k → tiles.getD j (0, 0) ∈ s.hit_mem) →
    tiles.getD k (0, 0) ∉ s.hit_mem →
    (∀ j, j < k → Interior s.width s.height (tiles.getD j (0, 0))) →
    InB s.width s.height (tiles.getD k (0, 0)) →
    ∃ e, sink s sx sy ex ey = Except.error e ∧
      e.ships = s.ships ∧
      (∀ j, j ≤ k →
        bGet e.board (tiles.getD j (0, 0)).1 (tiles.getD j (0, 0)).2 = some '#') ∧
      (∀ j, j ≤ k → ∀ d ∈ edgeOffsets,
        GoodCell e.board
          ((tiles.getD j (0, 0)).1 + d.1, (tiles.getD j (0, 0)).2 + d.2))

/-- C10 counterexample: sinking the span `(1,1)`–`(3,1)` with only `(1,1)`
and `(2,1)` in Hit Memory raises at `(3,1)` as described, but the failing
tile's own edges are NOT cleared: its right neighbour `(4,1)` still reads
unknown in the error state, refuting the claim's "cleared their neighbouring
edges" for the failing tile. -/
theorem C10_counterexample : ¬ C10claim := by
  intro h
  obtain ⟨e, he, _, _, hedges⟩ :=
    h ⟨[3], "n", 10, 10, mkBoard 10 10, [(1, 1), (2, 1)]⟩ 1 1 3 1
      [(1, 1), (2, 1), (3, 1)] 2 rfl (by decide) (by decide) (by decide)
      (by decide) (by decide) (by decide) (by decide)
  have hE : e = exceptErrD
      (sink ⟨[3], "n", 10, 10, mkBoard 10 10, [(1, 1), (2, 1)]⟩ 1 1 3 1)
      (mkGame []) := by
    rw [he]
    rfl
  have hbad := hedges 2 (Nat.le_refl 2) (1, 0) (by decide)
  rw [hE] at hbad
  unfold GoodCell at hbad
  rcases hbad with hbad | hbad <;> revert hbad <;> decide

/-- C10 (amended).  If the reported span's first tile absent from Hit Memory
sits at position `k`, `sink` raises the lookup error upon reaching it: the
error state keeps the ship list untouched, has Hit Memory drained of exactly
the earlier span tiles, shows that tile and every earlier span tile marked
sunk, has the edges of the EARLIER tiles cleared (miss or sunk), and leaves
every other cell — in particular the failing tile's fresh neighbours —
unchanged: the lookup error fires before the failing tile's own edge
clearing. -/
theorem C10_sink_partial_mutation (s : GameState) (sx sy ex ey : Int)
    (tiles : List (Int × Int)) (k : Nat)
    (hmode : s.mode = "n") (hwf : WF s.width s.height s.board)
    (htiles : tiles = (if sx = ex then spanV sx (min sy ey) (max sy ey)
                       else spanH sy (min sx ex) (max sx ex)))
    (hk : k < tiles.length)
    (hpres : ∀ j, j < k → tiles.getD j (0, 0) ∈ s.hit_mem)
    (habs : tiles.getD k (0, 0) ∉ s.hit_mem)
    (hintj : ∀ j, j < k → Interior s.width s.height (tiles.getD j (0, 0)))
    (hinbk : InB s.width s.height (tiles.getD k (0, 0))) :
    ∃ e, sink s sx sy ex ey = Except.error e ∧
      e.ships = s.ships ∧
      e.hit_mem = (tiles.take k).foldl (fun acc t => acc.erase t) s.hit_mem ∧
      (∀ j, j ≤ k →
        bGet e.board (tiles.getD j (0, 0)).1 (tiles.getD j (0, 0)).2 = some '#') ∧
      (∀ j, j < k → ∀ d ∈ edgeOffsets,
        GoodCell e.board
          ((tiles.getD j (0, 0)).1 + d.1, (tiles.getD j (0, 0)).2 + d.2)) ∧
      (∀ u v : Int, 0 ≤ u → u < s.width → 0 ≤ v → v < s.height →
        (∀ j, j ≤ k → (u, v) ≠ tiles.getD j (0, 0)) →
        (∀ j, j < k → ∀ d ∈ edgeOffsets,
          (u, v) ≠ ((tiles.getD j (0, 0)).1 + d.1, (tiles.getD j (0, 0)).2 + d.2)) →
        bGet e.board u v = bGet s.board u v) := by
  have hnodup : tiles.Nodup := by
    rw [htiles]
    split_ifs
    · exact spanV_nodup _ _ _
    · exact spanH_nodup _ _ _
  obtain ⟨e, he, h1, _, h3, h4, h5, _, _, h6⟩ :=
    sinkTiles_fail_spec s.width s.height tiles s k hmode rfl rfl hwf hnodup hk
      hpres habs hintj hinbk
  refine ⟨e, ?_, h1, h3, h4, h5, h6⟩
  unfold sink
  by_cases hx : sx = ex
  · rw [if_pos hx]
    rw [htiles, if_pos hx] at he
    rw [he]
  · rw [if_neg hx]
    rw [htiles, if_neg hx] at he
    rw [he]

/-- Witness for C10 (amended): the concrete failing sink of span
`(1,1)`–`(3,1)` with `(3,1)` missing from Hit Memory. -/
theorem C10_sink_partial_mutation_witness :
    ∃ e, sink ⟨[3], "n", 10, 10, mkBoard 10 10, [(1, 1), (2, 1)]⟩ 1 1 3 1
        = Except.error e ∧
      e.ships = [3] ∧ bGet e.board 3 1 = some '#' ∧ e.hit_mem = [] := by
  obtain ⟨e, he, h1, h2, hmark, _, _⟩ :=
    C10_sink_partial_mutation ⟨[3], "n", 10, 10, mkBoard 10 10, [(1, 1), (2, 1)]⟩
      1 1 3 1 [(1, 1), (2, 1), (3, 1)] 2 rfl (by decide) (by decide) (by decide)
      (by decide) (by decide) (by decide) (by decide)
  refine ⟨e, he, h1, ?_, by simpa using h2⟩
  have := hmark 2 (Nat.le_refl 2)
  simpa using this

/-! ## Inner structure of `gen_hit_map` and sorted-endpoint lemmas -/

lemma gen_hit_map_components (b : Board) (W H : Nat) (tx ty : Int)
    (hs : HitScores) (h : gen_hit_map b W H tx ty = some hs) :
    runScan b (rightCells W tx ty) = some hs.right ∧
    runScan b (leftCells tx ty) = some hs.left ∧
    runScan b (downCells H tx ty) = some hs.down ∧
    runScan b (upCells tx ty) = some hs.up := by
  unfold gen_hit_map at h
  simp only [bind, Option.bind_eq_some, Option.pure_def, Option.some.injEq] at h
  obtain ⟨r, hr, l, hl, d, hd, u, hu, heq⟩ := h
  subst heq
  exact ⟨hr, hl, hd, hu⟩

lemma gen_hit_map_ok (b : Board) (W H : Nat) (hwf : WF W H b) (tx ty : Int)
    (htx0 : 0 ≤ tx) (htx1 : tx < W) (hty0 : 0 ≤ ty) (hty1 : ty < H) :
    ∃ hs, gen_hit_map b W H tx ty = some hs := by
  obtain ⟨r, hr1, _⟩ := runScan_right b W H tx.toNat ty.toNat hwf (by omega) (by omega)
  obtain ⟨l, hl1, _⟩ := runScan_left b W H tx.toNat ty.toNat hwf (by omega) (by omega)
  obtain ⟨d, hd1, _⟩ := runScan_down b W H tx.toNat ty.toNat hwf (by omega) (by omega)
  obtain ⟨u, hu1, _⟩ := runScan_up b W H tx.toNat ty.toNat hwf (by omega) (by omega)
  have hcx : ((tx.toNat : Nat) : Int) = tx := by omega
  have hcy : ((ty.toNat : Nat) : Int) = ty := by omega
  rw [hcx, hcy] at hr1 hl1 hd1 hu1
  exact ⟨⟨r, l, d, u⟩, by simp [gen_hit_map, hr1, hl1, hd1, hu1]⟩

lemma runScan_pos (b : Board) (cells : List (Int × Int)) (n : Nat)
    (h : runScan b cells = some n) (hn : n ≠ 0) :
    ∃ c rest2, cells = c :: rest2 ∧ bGet b c.1 c.2 = some '.' := by
  cases cells with
  | nil =>
    unfold runScan at h
    injection h with h
    exact absurd h.symm hn
  | cons c rest =>
    unfold runScan at h
    cases hch : bGet b c.1 c.2 with
    | none => rw [hch] at h; exact absurd h (by simp)
    | some ch =>
      rw [hch] at h
      have h2 : (if ch ≠ '.' then some 0
          else Option.map (fun x => x + 1) (runScan b rest)) = some n := h
      by_cases hdot : ch = '.'
      · exact ⟨c, rest, rfl, by rw [hch, hdot]⟩
      · rw [if_pos hdot] at h2
        injection h2 with h2
        exact absurd h2.symm hn

lemma intRange_head (a b i : Int) (rest : List Int)
    (h : intRange a b = i :: rest) : i = a := by
  unfold intRange at h
  cases hm : (b - a).toNat with
  | zero => rw [hm] at h; simp at h
  | succ m =>
    rw [hm, List.range_succ_eq_map, List.map_cons] at h
    injection h with h1 _
    omega

lemma revRange_head (t i : Int) (rest : List Int)
    (h : revRange t = i :: rest) : i = t - 1 := by
  have hmem : i ∈ revRange t := by rw [h]; simp
  rw [mem_revRange] at hmem
  have hlen : (revRange t).length = t.toNat := length_revRange t
  have hget : (revRange t).getD 0 0 = t - 1 - 0 := by
    apply getD_revRange
    rw [h] at hlen
    simp at hlen
    omega
  rw [h] at hget
  simp at hget
  omega

lemma headD_mem {α : Type} (l : List α) (d : α) (h : l ≠ []) : l.headD d ∈ l := by
  cases l with
  | nil => exact absurd rfl h
  | cons a t => simp

lemma getLastD_mem {α : Type} (l : List α) (h : l ≠ []) :
    ∀ d : α, l.getLastD d ∈ l := by
  induction l with
  | nil => exact absurd rfl h
  | cons a t ih =>
    intro d
    rw [List.getLastD_cons]
    cases t with
    | nil => simp
    | cons c t2 =>
      exact List.mem_cons_of_mem a (ih (by simp) a)

lemma pairwise_headD_le {α : Type} (le : α → α → Bool)
    (hrefl : ∀ x, le x x = true) (l : List α) (d : α)
    (hp : l.Pairwise (fun x y => le x y = true)) :
    ∀ x ∈ l, le (l.headD d) x = true := by
  cases l with
  | nil => simp
  | cons a t =>
    rw [List.pairwise_cons] at hp
    intro x hx
    rcases List.mem_cons.mp hx with rfl | hx
    · exact hrefl x
    · exact hp.1 x hx

lemma pairwise_le_getLastD {α : Type} (le : α → α → Bool)
    (hrefl : ∀ x, le x x = true) (l : List α)
    (hp : l.Pairwise (fun x y => le x y = true)) :
    ∀ (d : α), ∀ x ∈ l, le x (l.getLastD d) = true := by
  induction l with
  | nil => simp
  | cons a t ih =>
    rw [List.pairwise_cons] at hp
    intro d x hx
    rw [List.getLastD_cons]
    cases t with
    | nil =>
      simp only [List.getLastD_nil]
      rcases List.mem_cons.mp hx with rfl | hx
      · exact hrefl x
      · simp at hx
    | cons c t2 =>
      rcases List.mem_cons.mp hx with rfl | hx
      · exact hp.1 _ (getLastD_mem (c :: t2) (by simp) x)
      · exact ih hp.2 a x hx

lemma leY_refl : ∀ p : Int × Int, leY p p = true := by
  intro p
  simp [leY]

lemma leY_total : ∀ p q : Int × Int, leY p q = true ∨ leY q p = true := by
  intro p q
  simp only [leY, decide_eq_true_eq]
  omega

lemma leY_trans : ∀ p q r : Int × Int,
    leY p q = true → leY q r = true → leY p r = true := by
  intro p q r
  simp only [leY, decide_eq_true_eq]
  omega

lemma leX_refl : ∀ p : Int × Int, leX p p = true := by
  intro p
  simp [leX]

lemma leX_total : ∀ p q : Int × Int, leX p q = true ∨ leX q p = true := by
  intro p q
  simp only [leX, decide_eq_true_eq]
  omega

lemma leX_trans : ∀ p q r : Int × Int,
    leX p q = true → leX q r = true → leX p r = true := by
  intro p q r
  simp only [leX, decide_eq_true_eq]
  omega

lemma hitMapPairs_vertical (s : GameState) (h0 h1 : Int × Int)
    (rest : List (Int × Int))
    (hwf : WF s.width s.height s.board)
    (hhm : s.hit_mem = h0 :: h1 :: rest)
    (hdet : h0.1 = ((h0 :: h1 :: rest).getLastD h0).1)
    (hin : ∀ p ∈ s.hit_mem, InB s.width s.height p) :
    ∃ lo hi hsLo hsHi,
      lo ∈ s.hit_mem ∧ hi ∈ s.hit_mem ∧
      (∀ p ∈ s.hit_mem, lo.2 ≤ p.2 ∧ p.2 ≤ hi.2) ∧
      gen_hit_map s.board s.width s.height lo.1 lo.2 = some hsLo ∧
      gen_hit_map s.board s.width s.height hi.1 hi.2 = some hsHi ∧
      hitMapPairs s = some (sSort leY (h0 :: h1 :: rest),
        [((hi.1, hi.2 + 1), hsHi.down), ((lo.1, lo.2 - 1), hsLo.up)]) := by
  have hsortne : sSort leY (h0 :: h1 :: rest) ≠ [] := by
    intro hc
    have := length_sSort leY (h0 :: h1 :: rest)
    rw [hc] at this
    simp at this
  have hpairwise := sSort_pairwise leY leY_total leY_trans (h0 :: h1 :: rest)
  have hhimem : (sSort leY (h0 :: h1 :: rest)).getLastD h0 ∈ s.hit_mem := by
    rw [hhm]
    exact (mem_sSort leY _ _).mp (getLastD_mem _ hsortne h0)
  have hlomem : (sSort leY (h0 :: h1 :: rest)).headD h0 ∈ s.hit_mem := by
    rw [hhm]
    exact (mem_sSort leY _ _).mp (headD_mem _ h0 hsortne)
  have hminmax : ∀ p ∈ s.hit_mem,
      ((sSort leY (h0 :: h1 :: rest)).headD h0).2 ≤ p.2 ∧
      p.2 ≤ ((sSort leY (h0 :: h1 :: rest)).getLastD h0).2 := by
    intro p hp
    rw [hhm] at hp
    have hps : p ∈ sSort leY (h0 :: h1 :: rest) := (mem_sSort leY _ _).mpr hp
    constructor
    · have := pairwise_headD_le leY leY_refl _ h0 hpairwise p hps
      simpa [leY] using this
    · have := pairwise_le_getLastD leY leY_refl _ hpairwise h0 p hps
      simpa [leY] using this
  have hhiin := hin _ hhimem
  have hloin := hin _ hlomem
  unfold InB at hhiin hloin
  obtain ⟨hsHi, hGhi⟩ := gen_hit_map_ok s.board s.width s.height hwf
    ((sSort leY (h0 :: h1 :: rest)).getLastD h0).1
    ((sSort leY (h0 :: h1 :: rest)).getLastD h0).2
    hhiin.1 hhiin.2.1 hhiin.2.2.1 hhiin.2.2.2
  obtain ⟨hsLo, hGlo⟩ := gen_hit_map_ok s.board s.width s.height hwf
    ((sSort leY (h0 :: h1 :: rest)).headD h0).1
    ((sSort leY (h0 :: h1 :: rest)).headD h0).2
    hloin.1 hloin.2.1 hloin.2.2.1 hloin.2.2.2
  refine ⟨_, _, hsLo, hsHi, hlomem, hhimem, hminmax, hGlo, hGhi, ?_⟩
  unfold hitMapPairs
  rw [hhm]
  simp only [if_pos hdet]
  rw [hGhi, hGlo]
  simp

lemma hitMapPairs_horizontal (s : GameState) (h0 h1 : Int × Int)
    (rest : List (Int × Int))
    (hwf : WF s.width s.height s.board)
    (hhm : s.hit_mem = h0 :: h1 :: rest)
    (hdet : h0.1 ≠ ((h0 :: h1 :: rest).getLastD h0).1)
    (hin : ∀ p ∈ s.hit_mem, InB s.width s.height p) :
    ∃ lo hi hsLo hsHi,
      lo ∈ s.hit_mem ∧ hi ∈ s.hit_mem ∧
      (∀ p ∈ s.hit_mem, lo.1 ≤ p.1 ∧ p.1 ≤ hi.1) ∧
      gen_hit_map s.board s.width s.height lo.1 lo.2 = some hsLo ∧
      gen_hit_map s.board s.width s.height hi.1 hi.2 = some hsHi ∧
      hitMapPairs s = some (sSort leX (h0 :: h1 :: rest),
        [((hi.1 + 1, hi.2), hsHi.right), ((lo.1 - 1, lo.2), hsLo.left)]) := by
  have hsortne : sSort leX (h0 :: h1 :: rest) ≠ [] := by
    intro hc
    have := length_sSort leX (h0 :: h1 :: rest)
    rw [hc] at this
    simp at this
  have hpairwise := sSort_pairwise leX leX_total leX_trans (h0 :: h1 :: rest)
  have hhimem : (sSort leX (h0 :: h1 :: rest)).getLastD h0 ∈ s.hit_mem := by
    rw [hhm]
    exact (mem_sSort leX _ _).mp (getLastD_mem _ hsortne h0)
  have hlomem : (sSort leX (h0 :: h1 :: rest)).headD h0 ∈ s.hit_mem := by
    rw [hhm]
    exact (mem_sSort leX _ _).mp (headD_mem _ h0 hsortne)
  have hminmax : ∀ p ∈ s.hit_mem,
      ((sSort leX (h0 :: h1 :: rest)).headD h0).1 ≤ p.1 ∧
      p.1 ≤ ((sSort leX (h0 :: h1 :: rest)).getLastD h0).1 := by
    intro p hp
    rw [hhm] at hp
    have hps : p ∈ sSort leX (h0 :: h1 :: rest) := (mem_sSort leX _ _).mpr hp
    constructor
    · have := pairwise_headD_le leX leX_refl _ h0 hpairwise p hps
      simpa [leX] using this
    · have := pairwise_le_getLastD leX leX_refl _ hpairwise h0 p hps
      simpa [leX] using this
  have hhiin := hin _ hhimem
  have hloin := hin _ hlomem
  unfold InB at hhiin hloin
  obtain ⟨hsHi, hGhi⟩ := gen_hit_map_ok s.board s.width s.height hwf
    ((sSort leX (h0 :: h1 :: rest)).getLastD h0).1
    ((sSort leX (h0 :: h1 :: rest)).getLastD h0).2
    hhiin.1 hhiin.2.1 hhiin.2.2.1 hhiin.2.2.2
  obtain ⟨hsLo, hGlo⟩ := gen_hit_map_ok s.board s.width s.height hwf
    ((sSort leX (h0 :: h1 :: rest)).headD h0).1
    ((sSort leX (h0 :: h1 :: rest)).headD h0).2
    hloin.1 hloin.2.1 hloin.2.2.1 hloin.2.2.2
  refine ⟨_, _, hsLo, hsHi, hlomem, hhimem, hminmax, hGlo, hGhi, ?_⟩
  unfold hitMapPairs
  rw [hhm]
  simp only [if_neg hdet]
  rw [hGhi, hGlo]
  simp

/-- The 10×10 board of the spec scenario with hits registered at `(2, 5)`
and `(4, 5)`, every other cell unknown. -/
def scenario2Board : Board :=
  ((bSet (mkBoard 10 10) 2 5 'x').bind (fun bb => bSet bb 4 5 'x')).getD []

/-- Game state for the two-hit scenario of the spec. -/
def scenario2State : GameState :=
  ⟨[3], "n", 10, 10, scenario2Board, [(2, 5), (4, 5)]⟩

/-- C3.  With two or more pending hits, `predict` builds a candidate mapping
of exactly two entries: one past the highest endpoint and one past the lowest
endpoint along the detected axis (vertical iff the first and last Hit Memory
entries share their x-coordinate), each scored by the single directional
run-length extending the line past that endpoint.  In particular, for hits at
`(2, 5)` and `(4, 5)` the horizontal branch is taken and only `(1, 5)` and
`(5, 5)` are candidates (scored 2 and 5 on the otherwise empty board). -/
theorem C3_predict_two_hit_candidates :
    (∀ (s : GameState) (h0 h1 : Int × Int) (rest : List (Int × Int)),
      WF s.width s.height s.board →
      s.hit_mem = h0 :: h1 :: rest →
      h0.1 = ((h0 :: h1 :: rest).getLastD h0).1 →
      (∀ p ∈ s.hit_mem, InB s.width s.height p) →
      ∃ lo hi hsLo hsHi pairs,
        hitMapPairs s = some (sSort leY (h0 :: h1 :: rest), pairs) ∧
        pairs = [((hi.1, hi.2 + 1), hsHi.down), ((lo.1, lo.2 - 1), hsLo.up)] ∧
        pairs.length = 2 ∧
        ((hi.1, hi.2 + 1) : Int × Int) ≠ (lo.1, lo.2 - 1) ∧
        lo ∈ s.hit_mem ∧ hi ∈ s.hit_mem ∧
        (∀ p ∈ s.hit_mem, lo.2 ≤ p.2 ∧ p.2 ≤ hi.2) ∧
        gen_hit_map s.board s.width s.height lo.1 lo.2 = some hsLo ∧
        gen_hit_map s.board s.width s.height hi.1 hi.2 = some hsHi) ∧
    (∀ (s : GameState) (h0 h1 : Int × Int) (rest : List (Int × Int)),
      WF s.width s.height s.board →
      s.hit_mem = h0 :: h1 :: rest →
      h0.1 ≠ ((h0 :: h1 :: rest).getLastD h0).1 →
      (∀ p ∈ s.hit_mem, InB s.width s.height p) →
      ∃ lo hi hsLo hsHi pairs,
        hitMapPairs s = some (sSort leX (h0 :: h1 :: rest), pairs) ∧
        pairs = [((hi.1 + 1, hi.2), hsHi.right), ((lo.1 - 1, lo.2), hsLo.left)] ∧
        pairs.length = 2 ∧
        ((hi.1 + 1, hi.2) : Int × Int) ≠ (lo.1 - 1, lo.2) ∧
        lo ∈ s.hit_mem ∧ hi ∈ s.hit_mem ∧
        (∀ p ∈ s.hit_mem, lo.1 ≤ p.1 ∧ p.1 ≤ hi.1) ∧
        gen_hit_map s.board s.width s.height lo.1 lo.2 = some hsLo ∧
        gen_hit_map s.board s.width s.height hi.1 hi.2 = some hsHi) ∧
    (hitMapPairs scenario2State).map (fun pr => pr.2.map Prod.fst)
      = some [(5, 5), (1, 5)] ∧
    (hitMapPairs scenario2State).map (fun pr => pr.2)
      = some [((5, 5), 5), ((1, 5), 2)] := by
  refine ⟨?_, ?_, by decide, by decide⟩
  · intro s h0 h1 rest hwf hhm hdet hin
    obtain ⟨lo, hi, hsLo, hsHi, hlomem, hhimem, hminmax, hGlo, hGhi, hmap⟩ :=
      hitMapPairs_vertical s h0 h1 rest hwf hhm hdet hin
    have hlohi : lo.2 ≤ hi.2 := (hminmax lo hlomem).2
    refine ⟨lo, hi, hsLo, hsHi, _, hmap, rfl, rfl, ?_, hlomem, hhimem, hminmax, hGlo, hGhi⟩
    intro hc
    rw [Prod.mk.injEq] at hc
    omega
  · intro s h0 h1 rest hwf hhm hdet hin
    obtain ⟨lo, hi, hsLo, hsHi, hlomem, hhimem, hminmax, hGlo, hGhi, hmap⟩ :=
      hitMapPairs_horizontal s h0 h1 rest hwf hhm hdet hin
    have hlohi : lo.1 ≤ hi.1 := (hminmax lo hlomem).2
    refine ⟨lo, hi, hsLo, hsHi, _, hmap, rfl, rfl, ?_, hlomem, hhimem, hminmax, hGlo, hGhi⟩
    intro hc
    rw [Prod.mk.injEq] at hc
    omega

/-- Witness for C3: the theorem's horizontal branch applied to the concrete
two-hit scenario `(2, 5)`, `(4, 5)`. -/
theorem C3_predict_two_hit_candidates_witness :
    WF 10 10 scenario2Board ∧
    (∃ pairs, hitMapPairs scenario2State
        = some (sSort leX [(2, 5), (4, 5)], pairs) ∧ pairs.length = 2) := by
  refine ⟨by decide, ?_⟩
  obtain ⟨lo, hi, hsLo, hsHi, pairs, hmap, _, hlen, _⟩ :=
    C3_predict_two_hit_candidates.2.1 scenario2State (2, 5) (4, 5) []
      (by decide) rfl (by decide) (by decide)
  exact ⟨pairs, hmap, hlen⟩

/-! ## Predict candidates and the unknown-mark property (claims C4, C8) -/

/-- Formalisation of claim C4 exactly as stated: in every reachable state in
which `predict` runs, every coordinate it can return (each candidate of the
uniform draw) has board mark unknown at call time. -/
def C4claim : Prop :=
  ∀ (s : GameState), Reach s →
    ∀ (hm cs : List (Int × Int)) (c : Int × Int),
      predCandidates s = some (hm, cs) → c ∈ cs →
      bGet s.board c.1 c.2 = some '.'

set_option maxRecDepth 10000 in
/-- C4 counterexample: start a game with zero ships (the CLI accepts 0), miss
at `(0, 0)`; on the next turn the probability map is identically zero, its
maximum is 0, and `np.argwhere` lists every cell — including the already
missed `(0, 0)` — as a candidate. -/
theorem C4_counterexample : ¬ C4claim := by
  intro h
  obtain ⟨⟨hm0, cs0⟩, hpr0⟩ : ∃ pr, predCandidates (mkGame []) = some pr := ⟨_, rfl⟩
  obtain ⟨s1, hs1⟩ : ∃ s1, applyTurn (mkGame []) (0, 0) 'o' = some s1 := ⟨_, rfl⟩
  have hc0 : ((0 : Int), (0 : Int)) ∈ cs0 := by
    have hmem : ((0 : Int), (0 : Int)) ∈
        ((predCandidates (mkGame [])).getD ([], [])).2 := by decide
    rw [hpr0] at hmem
    exact hmem
  have hreach : Reach s1 :=
    Reach.turn (mkGame []) (0, 0) 'o' s1 hm0 cs0 (Reach.init []) hpr0 hc0
      (Or.inr rfl) hs1
  have hs1eq : s1 = (applyTurn (mkGame []) (0, 0) 'o').getD (mkGame []) := by
    rw [hs1]
    rfl
  obtain ⟨⟨hm1, cs1⟩, hpr1⟩ : ∃ pr, predCandidates s1 = some pr := by
    rw [hs1eq]
    exact ⟨_, rfl⟩
  have hc1 : ((0 : Int), (0 : Int)) ∈ cs1 := by
    have hmem : ((0 : Int), (0 : Int)) ∈
        ((predCandidates ((applyTurn (mkGame []) (0, 0) 'o').getD
          (mkGame []))).getD ([], [])).2 := by decide
    rw [← hs1eq, hpr1] at hmem
    exact hmem
  have hdot := h s1 hreach hm1 cs1 (0, 0) hpr1 hc1
  rw [hs1eq] at hdot
  have hbad : bGet (((applyTurn (mkGame []) (0, 0) 'o').getD
      (mkGame [])).board) 0 0 = some 'o' := by decide
  rw [hdot] at hbad
  exact absurd hbad (by decide)

lemma map_pair_head {f : Int → Int × Int} {l : List Int} {c : Int × Int}
    {r2 : List (Int × Int)} (h : l.map f = c :: r2) :
    ∃ i l2, l = i :: l2 ∧ c = f i := by
  cases l with
  | nil => simp at h
  | cons i l2 =>
    rw [List.map_cons] at h
    injection h with h1 h2
    exact ⟨i, l2, rfl, h1.symm⟩

lemma prob_pos_unknown (b : Board) (W H : Nat) (ships : List Int) (x y : Nat)
    (h : gen_prob_map b W H ships (x, y) ≠ 0) :
    x < W ∧ y < H ∧ cell b x y = '.' := by
  rw [gen_prob_map_eq_coverCount] at h
  unfold coverCount at h
  have h1 : ∃ sl ∈ ships, coverCountShip b W H sl.toNat x y ≠ 0 := by
    by_contra hc
    push_neg at hc
    refine h (List.sum_eq_zero_iff.mpr ?_)
    intro n hn
    rw [List.mem_map] at hn
    obtain ⟨sl, hsl, rfl⟩ := hn
    exact hc sl hsl
  obtain ⟨sl, _, hne⟩ := h1
  unfold coverCountShip at hne
  set L := sl.toNat with hL
  have h2 : (∃ oy ∈ List.range H, (List.range W).countP
        (fun ox => hPlaceOK b W H L ox oy && hCovB L ox oy x y) ≠ 0) ∨
      (∃ oy ∈ List.range H, (List.range W).countP
        (fun ox => vPlaceOK b W H L ox oy && vCovB L ox oy x y) ≠ 0) := by
    by_contra hc
    push_neg at hc
    apply hne
    have hA : ((List.range H).map (fun oy => (List.range W).countP
        (fun ox => hPlaceOK b W H L ox oy && hCovB L ox oy x y))).sum = 0 := by
      apply List.sum_eq_zero_iff.mpr
      intro n hn
      rw [List.mem_map] at hn
      obtain ⟨oy, hoy, rfl⟩ := hn
      exact hc.1 oy hoy
    have hB : ((List.range H).map (fun oy => (List.range W).countP
        (fun ox => vPlaceOK b W H L ox oy && vCovB L ox oy x y))).sum = 0 := by
      apply List.sum_eq_zero_iff.mpr
      intro n hn
      rw [List.mem_map] at hn
      obtain ⟨oy, hoy, rfl⟩ := hn
      exact hc.2 oy hoy
    rw [hA, hB]
  rcases h2 with ⟨oy, _, hcp⟩ | ⟨oy, _, hcp⟩
  · have h3 : ∃ ox ∈ List.range W,
        (hPlaceOK b W H L ox oy && hCovB L ox oy x y) = true := by
      by_contra hc
      push_neg at hc
      apply hcp
      rw [List.countP_eq_zero]
      intro ox hox
      exact hc ox hox
    obtain ⟨ox, _, hok⟩ := h3
    rw [Bool.and_eq_true] at hok
    obtain ⟨hplace, hcov⟩ := hok
    rw [hCovB_iff] at hcov
    obtain ⟨rfl, hox1, hox2⟩ := hcov
    unfold hPlaceOK at hplace
    simp only [Bool.and_eq_true, decide_eq_true_eq, List.all_eq_true,
      List.mem_range, beq_iff_eq] at hplace
    refine ⟨by omega, hplace.1.2, ?_⟩
    have := hplace.2 (x - ox) (by omega)
    rw [show ox + (x - ox) = x by omega] at this
    exact this
  · have h3 : ∃ ox ∈ List.range W,
        (vPlaceOK b W H L ox oy && vCovB L ox oy x y) = true := by
      by_contra hc
      push_neg at hc
      apply hcp
      rw [List.countP_eq_zero]
      intro ox hox
      exact hc ox hox
    obtain ⟨ox, _, hok⟩ := h3
    rw [Bool.and_eq_true] at hok
    obtain ⟨hplace, hcov⟩ := hok
    rw [vCovB_iff] at hcov
    obtain ⟨rfl, hoy1, hoy2⟩ := hcov
    unfold vPlaceOK at hplace
    simp only [Bool.and_eq_true, decide_eq_true_eq, List.all_eq_true,
      List.mem_range, beq_iff_eq] at hplace
    refine ⟨hplace.1.2, by omega, ?_⟩
    have := hplace.2 (y - oy) (by omega)
    rw [show oy + (y - oy) = y by omega] at this
    exact this

lemma runScan_right_pos (b : Board) (W : Nat) (tx ty : Int) (v : Nat)
    (h : runScan b (rightCells W tx ty) = some v) (hv : v ≠ 0) :
    bGet b (tx + 1) ty = some '.' := by
  obtain ⟨c, rest2, hcells, hdot⟩ := runScan_pos b _ v h hv
  obtain ⟨i, l2, hIR, hc⟩ := map_pair_head hcells
  rw [intRange_head _ _ _ _ hIR] at hc
  rw [hc] at hdot
  exact hdot

lemma runScan_left_pos (b : Board) (tx ty : Int) (v : Nat)
    (h : runScan b (leftCells tx ty) = some v) (hv : v ≠ 0) :
    bGet b (tx - 1) ty = some '.' := by
  obtain ⟨c, rest2, hcells, hdot⟩ := runScan_pos b _ v h hv
  obtain ⟨i, l2, hIR, hc⟩ := map_pair_head hcells
  rw [revRange_head _ _ _ hIR] at hc
  rw [hc] at hdot
  exact hdot

lemma runScan_down_pos (b : Board) (H : Nat) (tx ty : Int) (v : Nat)
    (h : runScan b (downCells H tx ty) = some v) (hv : v ≠ 0) :
    bGet b tx (ty + 1) = some '.' := by
  obtain ⟨c, rest2, hcells, hdot⟩ := runScan_pos b _ v h hv
  obtain ⟨i, l2, hIR, hc⟩ := map_pair_head hcells
  rw [intRange_head _ _ _ _ hIR] at hc
  rw [hc] at hdot
  exact hdot

lemma runScan_up_pos (b : Board) (tx ty : Int) (v : Nat)
    (h : runScan b (upCells tx ty) = some v) (hv : v ≠ 0) :
    bGet b tx (ty - 1) = some '.' := by
  obtain ⟨c, rest2, hcells, hdot⟩ := runScan_pos b _ v h hv
  obtain ⟨i, l2, hIR, hc⟩ := map_pair_head hcells
  rw [revRange_head _ _ _ hIR] at hc
  rw [hc] at hdot
  exact hdot

lemma hit_pair_pos_unknown (s : GameState) (hm : List (Int × Int))
    (pairs : List ((Int × Int) × Nat)) (k : Int × Int) (v : Nat)
    (h : hitMapPairs s = some (hm, pairs)) (hkv : (k, v) ∈ pairs) (hv : v ≠ 0) :
    bGet s.board k.1 k.2 = some '.' := by
  unfold hitMapPairs at h
  cases hhm : s.hit_mem with
  | nil => rw [hhm] at h; simp at h
  | cons h0 t =>
    cases t with
    | nil =>
      rw [hhm] at h
      dsimp only at h
      cases hg : gen_hit_map s.board s.width s.height h0.1 h0.2 with
      | none => rw [hg] at h; simp at h
      | some hs =>
        rw [hg] at h
        have h2 := Option.some.inj h
        have hp : pairs = hit_dict h0.1 h0.2 hs := (congrArg Prod.snd h2).symm
        obtain ⟨hcomp1, hcomp2, hcomp3, hcomp4⟩ :=
          gen_hit_map_components _ _ _ _ _ _ hg
        rw [hp] at hkv
        unfold hit_dict at hkv
        simp only [List.mem_cons, List.not_mem_nil, or_false] at hkv
        rcases hkv with hkv | hkv | hkv | hkv <;> rw [Prod.mk.injEq] at hkv <;>
          obtain ⟨rfl, rfl⟩ := hkv
        · exact runScan_right_pos _ _ _ _ _ hcomp1 hv
        · exact runScan_left_pos _ _ _ _ hcomp2 hv
        · exact runScan_down_pos _ _ _ _ _ hcomp3 hv
        · exact runScan_up_pos _ _ _ _ hcomp4 hv
    | cons h1 rest =>
      rw [hhm] at h
      dsimp only at h
      by_cases hdet : h0.1 = ((h0 :: h1 :: rest).getLastD h0).1
      · simp only [if_pos hdet] at h
        cases hgLow : gen_hit_map s.board s.width s.height
            ((sSort leY (h0 :: h1 :: rest)).getLastD h0).1
            ((sSort leY (h0 :: h1 :: rest)).getLastD h0).2 with
        | none => rw [hgLow] at h; simp at h
        | some hsLow =>
          rw [hgLow] at h
          cases hgUp : gen_hit_map s.board s.width s.height
              ((sSort leY (h0 :: h1 :: rest)).headD h0).1
              ((sSort leY (h0 :: h1 :: rest)).headD h0).2 with
          | none => rw [hgUp] at h; simp at h
          | some hsUp =>
            rw [hgUp] at h
            have h2 := Option.some.inj h
            have hp : pairs =
                [((((sSort leY (h0 :: h1 :: rest)).getLastD h0).1,
                    ((sSort leY (h0 :: h1 :: rest)).getLastD h0).2 + 1), hsLow.down),
                 ((((sSort leY (h0 :: h1 :: rest)).headD h0).1,
                    ((sSort leY (h0 :: h1 :: rest)).headD h0).2 - 1), hsUp.up)] :=
              (congrArg Prod.snd h2).symm
            obtain ⟨hcomp1, hcomp2, hcomp3, hcomp4⟩ :=
              gen_hit_map_components _ _ _ _ _ _ hgLow
            obtain ⟨hucomp1, hucomp2, hucomp3, hucomp4⟩ :=
              gen_hit_map_components _ _ _ _ _ _ hgUp
            rw [hp] at hkv
            simp only [List.mem_cons, List.not_mem_nil, or_false] at hkv
            rcases hkv with hkv | hkv <;> rw [Prod.mk.injEq] at hkv <;>
              obtain ⟨rfl, rfl⟩ := hkv
            · exact runScan_down_pos _ _ _ _ _ hcomp3 hv
            · exact runScan_up_pos _ _ _ _ hucomp4 hv
      · simp only [if_neg hdet] at h
        cases hgL : gen_hit_map s.board s.width s.height
            ((sSort leX (h0 :: h1 :: rest)).getLastD h0).1
            ((sSort leX (h0 :: h1 :: rest)).getLastD h0).2 with
        | none => rw [hgL] at h; simp at h
        | some hsL =>
          rw [hgL] at h
          cases hgR : gen_hit_map s.board s.width s.height
              ((sSort leX (h0 :: h1 :: rest)).headD h0).1
              ((sSort leX (h0 :: h1 :: rest)).headD h0).2 with
          | none => rw [hgR] at h; simp at h
          | some hsR =>
            rw [hgR] at h
            have h2 := Option.some.inj h
            have hp : pairs =
                [((((sSort leX (h0 :: h1 :: rest)).getLastD h0).1 + 1,
                    ((sSort leX (h0 :: h1 :: rest)).getLastD h0).2), hsL.right),
                 ((((sSort leX (h0 :: h1 :: rest)).headD h0).1 - 1,
                    ((sSort leX (h0 :: h1 :: rest)).headD h0).2), hsR.left)] :=
              (congrArg Prod.snd h2).symm
            obtain ⟨hcomp1, hcomp2, hcomp3, hcomp4⟩ :=
              gen_hit_map_components _ _ _ _ _ _ hgL
            obtain ⟨hrcomp1, hrcomp2, hrcomp3, hrcomp4⟩ :=
              gen_hit_map_components _ _ _ _ _ _ hgR
            rw [hp] at hkv
            simp only [List.mem_cons, List.not_mem_nil, or_false] at hkv
            rcases hkv with hkv | hkv <;> rw [Prod.mk.injEq] at hkv <;>
              obtain ⟨rfl, rfl⟩ := hkv
            · exact runScan_right_pos _ _ _ _ _ hcomp1 hv
            · exact runScan_left_pos _ _ _ _ hrcomp2 hv

/-- C4 (amended).  A candidate can fail to be unknown only with a zero score:
every cell with a positive probability-map count is in bounds and unknown, and
every hit-map candidate whose directional score is positive reads as unknown
(the score counts a run that starts at the candidate cell itself).  `predict`
can thus return a non-unknown coordinate only when every candidate scores
zero, e.g. with no remaining ship placements. -/
theorem C4_positive_score_candidate_unknown :
    (∀ (b : Board) (W H : Nat) (ships : List Int) (x y : Nat),
      gen_prob_map b W H ships (x, y) ≠ 0 →
      x < W ∧ y < H ∧ cell b x y = '.') ∧
    (∀ (s : GameState) (hm : List (Int × Int))
      (pairs : List ((Int × Int) × Nat)) (k : Int × Int) (v : Nat),
      hitMapPairs s = some (hm, pairs) → (k, v) ∈ pairs → v ≠ 0 →
      bGet s.board k.1 k.2 = some '.') :=
  ⟨prob_pos_unknown, hit_pair_pos_unknown⟩

/-- Witness for C4 (amended): the probability part on an empty 2×2 board with
one length-2 ship at `(0, 0)`, and the hit part on the two-hit spec scenario
where the candidate `(5, 5)` scores 5. -/
theorem C4_positive_score_candidate_unknown_witness :
    (gen_prob_map (mkBoard 2 2) 2 2 [2] (0, 0) ≠ 0 ∧
      cell (mkBoard 2 2) 0 0 = '.') ∧
    (hitMapPairs scenario2State
        = some ([(2, 5), (4, 5)], [((5, 5), 5), ((1, 5), 2)]) ∧
      bGet scenario2Board 5 5 = some '.') :=
  ⟨⟨by decide,
    (C4_positive_score_candidate_unknown.1 (mkBoard 2 2) 2 2 [2] 0 0
      (by decide)).2.2⟩,
   ⟨by decide,
    C4_positive_score_candidate_unknown.2 scenario2State [(2, 5), (4, 5)]
      [((5, 5), 5), ((1, 5), 2)] (5, 5) 5 (by decide) (by decide) (by decide)⟩⟩

lemma hitMapPairs_shape (s : GameState) (hm : List (Int × Int))
    (pairs : List ((Int × Int) × Nat)) (h : hitMapPairs s = some (hm, pairs)) :
    (∀ p, p ∈ hm ↔ p ∈ s.hit_mem) ∧
    (∀ kv ∈ pairs, ∀ p ∈ s.hit_mem, kv.1 ≠ p) := by
  unfold hitMapPairs at h
  cases hhm : s.hit_mem with
  | nil => rw [hhm] at h; simp at h
  | cons h0 t =>
    cases t with
    | nil =>
      rw [hhm] at h
      dsimp only at h
      cases hg : gen_hit_map s.board s.width s.height h0.1 h0.2 with
      | none => rw [hg] at h; simp at h
      | some hs =>
        rw [hg] at h
        have h2 := Option.some.inj h
        have hpm : hm = [h0] := (congrArg Prod.fst h2).symm
        have hp : pairs = hit_dict h0.1 h0.2 hs := (congrArg Prod.snd h2).symm
        constructor
        · intro p
          rw [hpm]
        · intro kv hkv p hp2
          simp only [List.mem_cons, List.not_mem_nil, or_false] at hp2
          subst hp2
          rw [hp] at hkv
          unfold hit_dict at hkv
          simp only [List.mem_cons, List.not_mem_nil, or_false] at hkv
          rcases hkv with rfl | rfl | rfl | rfl <;>
            (intro hc; rw [Prod.ext_iff] at hc; dsimp only at hc; omega)
    | cons h1 rest =>
      rw [hhm] at h
      dsimp only at h
      by_cases hdet : h0.1 = ((h0 :: h1 :: rest).getLastD h0).1
      · simp only [if_pos hdet] at h
        cases hgLow : gen_hit_map s.board s.width s.height
            ((sSort leY (h0 :: h1 :: rest)).getLastD h0).1
            ((sSort leY (h0 :: h1 :: rest)).getLastD h0).2 with
        | none => rw [hgLow] at h; simp at h
        | some hsLow =>
          rw [hgLow] at h
          cases hgUp : gen_hit_map s.board s.width s.height
              ((sSort leY (h0 :: h1 :: rest)).headD h0).1
              ((sSort leY (h0 :: h1 :: rest)).headD h0).2 with
          | none => rw [hgUp] at h; simp at h
          | some hsUp =>
            rw [hgUp] at h
            have h2 := Option.some.inj h
            have hpm : hm = sSort leY (h0 :: h1 :: rest) :=
              (congrArg Prod.fst h2).symm
            have hp : pairs =
                [((((sSort leY (h0 :: h1 :: rest)).getLastD h0).1,
                    ((sSort leY (h0 :: h1 :: rest)).getLastD h0).2 + 1), hsLow.down),
                 ((((sSort leY (h0 :: h1 :: rest)).headD h0).1,
                    ((sSort leY (h0 :: h1 :: rest)).headD h0).2 - 1), hsUp.up)] :=
              (congrArg Prod.snd h2).symm
            have hpw := sSort_pairwise leY leY_total leY_trans (h0 :: h1 :: rest)
            constructor
            · intro p
              rw [hpm]
              exact mem_sSort leY _ p
            · intro kv hkv p hp2
              have hps : p ∈ sSort leY (h0 :: h1 :: rest) :=
                (mem_sSort leY _ _).mpr hp2
              have hup : ((sSort leY (h0 :: h1 :: rest)).headD h0).2 ≤ p.2 := by
                have := pairwise_headD_le leY leY_refl _ h0 hpw p hps
                simpa [leY] using this
              have hlow : p.2 ≤ ((sSort leY (h0 :: h1 :: rest)).getLastD h0).2 := by
                have := pairwise_le_getLastD leY leY_refl _ hpw h0 p hps
                simpa [leY] using this
              rw [hp] at hkv
              simp only [List.mem_cons, List.not_mem_nil, or_false] at hkv
              rcases hkv with rfl | rfl <;>
                (intro hc; rw [Prod.ext_iff] at hc; dsimp only at hc; omega)
      · simp only [if_neg hdet] at h
        cases hgL : gen_hit_map s.board s.width s.height
            ((sSort leX (h0 :: h1 :: rest)).getLastD h0).1
            ((sSort leX (h0 :: h1 :: rest)).getLastD h0).2 with
        | none => rw [hgL] at h; simp at h
        | some hsL =>
          rw [hgL] at h
          cases hgR : gen_hit_map s.board s.width s.height
              ((sSort leX (h0 :: h1 :: rest)).headD h0).1
              ((sSort leX (h0 :: h1 :: rest)).headD h0).2 with
          | none => rw [hgR] at h; simp at h
          | some hsR =>
            rw [hgR] at h
            have h2 := Option.some.inj h
            have hpm : hm = sSort leX (h0 :: h1 :: rest) :=
              (congrArg Prod.fst h2).symm
            have hp : pairs =
                [((((sSort leX (h0 :: h1 :: rest)).getLastD h0).1 + 1,
                    ((sSort leX (h0 :: h1 :: rest)).getLastD h0).2), hsL.right),
                 ((((sSort leX (h0 :: h1 :: rest)).headD h0).1 - 1,
                    ((sSort leX (h0 :: h1 :: rest)).headD h0).2), hsR.left)] :=
              (congrArg Prod.snd h2).symm
            have hpw := sSort_pairwise leX leX_total leX_trans (h0 :: h1 :: rest)
            constructor
            · intro p
              rw [hpm]
              exact mem_sSort leX _ p
            · intro kv hkv p hp2
              have hps : p ∈ sSort leX (h0 :: h1 :: rest) :=
                (mem_sSort leX _ _).mpr hp2
              have hup : ((sSort leX (h0 :: h1 :: rest)).headD h0).1 ≤ p.1 := by
                have := pairwise_headD_le leX leX_refl _ h0 hpw p hps
                simpa [leX] using this
              have hlow : p.1 ≤ ((sSort leX (h0 :: h1 :: rest)).getLastD h0).1 := by
                have := pairwise_le_getLastD leX leX_refl _ hpw h0 p hps
                simpa [leX] using this
              rw [hp] at hkv
              simp only [List.mem_cons, List.not_mem_nil, or_false] at hkv
              rcases hkv with rfl | rfl <;>
                (intro hc; rw [Prod.ext_iff] at hc; dsimp only at hc; omega)

/-- The hit-memory invariant: every coordinate stored in hit memory reads
back as a hit mark on the board. -/
def HMInv (s : GameState) : Prop :=
  ∀ p ∈ s.hit_mem, bGet s.board p.1 p.2 = some 'x'

instance (s : GameState) : Decidable (HMInv s) :=
  inferInstanceAs (Decidable (∀ p ∈ s.hit_mem, bGet s.board p.1 p.2 = some 'x'))

/-- The claim as stated: the invariant holds in every reachable state and is
preserved by each of predict, update and sink (whenever they succeed). -/
def C8claim : Prop :=
  (∀ s, Reach s → HMInv s) ∧
  (∀ (s : GameState) (c : Int × Int) (s1 : GameState),
    HMInv s → applyPredict s c = some s1 → HMInv s1) ∧
  (∀ (s : GameState) (px py : Int) (res : Char) (s1 : GameState),
    HMInv s → update s px py res = some s1 → HMInv s1) ∧
  (∀ (s : GameState) (sx sy ex ey : Int) (s2 : GameState) (over : Bool),
    HMInv s → sink s sx sy ex ey = Except.ok (s2, over) → HMInv s2)

def c8Board : Board :=
  ((bSet (mkBoard 10 10) 4 4 'x').bind (fun bb => bSet bb 5 4 'x')).getD []

def c8State : GameState :=
  ⟨[1], "n", 10, 10, c8Board, [(4, 4), (5, 4)]⟩

def exceptOkD (r : Except GameState (GameState × Bool)) (d : GameState) :
    GameState :=
  match r with
  | .ok p => p.1
  | .error _ => d

set_option maxRecDepth 10000 in
/-- C8: counterexample. In mode "n", sinking the length-1 ship at (4,4) while
(5,4) is also a recorded hit clears the neighbouring hit cell (5,4) to 'o'
but leaves (5,4) in hit memory, breaking the invariant. -/
theorem C8_counterexample : ¬C8claim := by
  intro hc
  obtain ⟨-, -, -, hsink⟩ := hc
  obtain ⟨s2, over, hres⟩ :
      ∃ s2 over, sink c8State 4 4 4 4 = Except.ok (s2, over) := ⟨_, _, rfl⟩
  have hinv := hsink c8State 4 4 4 4 s2 over (by decide) hres
  have hps : s2 = exceptOkD (sink c8State 4 4 4 4) (mkGame []) := by
    rw [hres]
    rfl
  rw [hps] at hinv
  have hmem : ((5 : Int), (4 : Int)) ∈
      (exceptOkD (sink c8State 4 4 4 4) (mkGame [])).hit_mem := by decide
  have hbad := hinv (5, 4) hmem
  have hval : bGet (exceptOkD (sink c8State 4 4 4 4) (mkGame [])).board 5 4 =
      some 'o' := by decide
  exact absurd (hval.symm.trans hbad) (by decide)

lemma sinkTileStep_t_spec (s : GameState) (t : Int × Int)
    (hmode : s.mode = "t") (hwf : WF s.width s.height s.board)
    (htb : InB s.width s.height t) (hmem : t ∈ s.hit_mem) :
    ∃ b1, bSet s.board t.1 t.2 '#' = some b1 ∧
      sinkTileStep s t =
        Except.ok ({ s with board := b1, hit_mem := s.hit_mem.erase t }) ∧
      WF s.width s.height b1 ∧
      (∀ u v : Int, 0 ≤ u → u < s.width → 0 ≤ v → v < s.height →
        bGet b1 u v = if u = t.1 ∧ v = t.2 then some '#' else bGet s.board u v) := by
  unfold InB at htb
  obtain ⟨ht1, ht2, ht3, ht4⟩ := htb
  obtain ⟨b1, hb1, hwf1, hvals1⟩ :=
    bSet_wf_spec s.board s.width s.height hwf t.1 t.2 '#' ht1 ht2 ht3 ht4
  have hc2 : (({ s with board := b1 } : GameState).hit_mem.contains t) = true := by
    simp only
    simp [hmem]
  refine ⟨b1, hb1, ?_, hwf1, hvals1⟩
  unfold sinkTileStep
  rw [hb1]
  simp only [Option.some_bind]
  rw [hc2]
  simp [hmode]

lemma predCandidates_spec (s : GameState) (hm cs : List (Int × Int))
    (h : predCandidates s = some (hm, cs)) :
    (∀ p, p ∈ hm ↔ p ∈ s.hit_mem) ∧ (∀ c ∈ cs, ∀ p ∈ s.hit_mem, c ≠ p) := by
  unfold predCandidates at h
  by_cases hemp : s.hit_mem.isEmpty
  · rw [if_pos hemp] at h
    have h2 := Option.some.inj h
    have hhm : hm = s.hit_mem := (congrArg Prod.fst h2).symm
    constructor
    · intro p
      rw [hhm]
    · intro c hc p hp
      rw [List.isEmpty_iff] at hemp
      rw [hemp] at hp
      simp at hp
  · rw [if_neg hemp] at h
    cases hhp : hitMapPairs s with
    | none => rw [hhp] at h; simp at h
    | some pr =>
      rw [hhp] at h
      have h3 : some (pr.1, dictArgmax pr.2) = some (hm, cs) := h
      have h2 := Option.some.inj h3
      obtain ⟨hmemIff, hkeys⟩ := hitMapPairs_shape s pr.1 pr.2 (by rw [hhp])
      constructor
      · intro p
        have hhm : hm = pr.1 := (congrArg Prod.fst h2).symm
        rw [hhm]
        exact hmemIff p
      · have hcs : cs = dictArgmax pr.2 := (congrArg Prod.snd h2).symm
        intro c hc p hp
        rw [hcs] at hc
        unfold dictArgmax at hc
        obtain ⟨kv, hkvf, hfst⟩ := List.mem_map.mp hc
        have hkvp := (List.mem_filter.mp hkvf).1
        rw [← hfst]
        exact hkeys kv hkvp p hp

lemma sinkTiles_t_inv (tiles : List (Int × Int)) : ∀ (s s2 : GameState),
    s.mode = "t" → WF s.width s.height s.board →
    (∀ p ∈ s.hit_mem, InB s.width s.height p) → s.hit_mem.Nodup →
    (∀ t ∈ tiles, InB s.width s.height t) → HMInv s →
    sinkTiles s tiles = Except.ok s2 → HMInv s2 := by
  induction tiles with
  | nil =>
    intro s s2 _ _ _ _ _ hinv h
    have h2 := Except.ok.inj h
    rw [← h2]
    exact hinv
  | cons t ts ih =>
    intro s s2 hmode hwf hmemB hnd htiles hinv h
    by_cases hmem : t ∈ s.hit_mem
    · obtain ⟨b1, hb1, hstep, hwf1, hvals1⟩ :=
        sinkTileStep_t_spec s t hmode hwf (htiles t (List.mem_cons_self t ts)) hmem
      rw [show sinkTiles s (t :: ts) =
          match sinkTileStep s t with
          | .error e => .error e
          | .ok s3 => sinkTiles s3 ts from rfl, hstep] at h
      dsimp only at h
      refine ih { s with board := b1, hit_mem := s.hit_mem.erase t } s2 hmode
        hwf1 ?_ (List.Nodup.erase t hnd) ?_ ?_ h
      · intro p hp
        exact hmemB p (List.mem_of_mem_erase hp)
      · intro u hu
        exact htiles u (List.mem_cons_of_mem t hu)
      · intro p hp
        obtain ⟨hpne, hpm⟩ := (List.Nodup.mem_erase_iff hnd).mp hp
        have hinB := hmemB p hpm
        rw [hvals1 p.1 p.2 hinB.1 hinB.2.1 hinB.2.2.1 hinB.2.2.2]
        rw [if_neg (fun hc => hpne (by obtain ⟨a, c⟩ := t; exact Prod.ext hc.1 hc.2))]
        exact hinv p hpm
    · obtain ⟨e, hstep, -⟩ :=
        sinkTileStep_fail_spec s t hwf (htiles t (List.mem_cons_self t ts)) hmem
      rw [show sinkTiles s (t :: ts) =
          match sinkTileStep s t with
          | .error e => .error e
          | .ok s3 => sinkTiles s3 ts from rfl, hstep] at h
      exact Except.noConfusion h

/-- C8 (amended): the hit-memory invariant (every recorded hit reads back as
`"x"`) is genuinely preserved by `update` at a fresh in-bounds tile, by
`predict` marking one of its own candidates (candidates never coincide with a
recorded hit), and by a successful `sink` in record mode `"t"`; in no-touching
mode `"n"` the edge clearing can overwrite a neighbouring recorded hit with a
miss without removing it from hit memory, so the invariant fails there. -/
theorem C8_hit_memory_invariant :
    (∀ (s : GameState) (px py : Int) (res : Char) (s1 : GameState),
      WF s.width s.height s.board → InB s.width s.height (px, py) →
      (∀ p ∈ s.hit_mem, InB s.width s.height p) → (px, py) ∉ s.hit_mem →
      HMInv s → update s px py res = some s1 → HMInv s1) ∧
    (∀ (s : GameState) (c : Int × Int) (hm cs : List (Int × Int))
        (s1 : GameState),
      WF s.width s.height s.board →
      (∀ p ∈ s.hit_mem, InB s.width s.height p) → InB s.width s.height c →
      predCandidates s = some (hm, cs) → c ∈ cs →
      HMInv s → applyPredict s c = some s1 → HMInv s1) ∧
    (∀ (s : GameState) (sx sy ex ey : Int) (s2 : GameState) (over : Bool),
      s.mode = "t" → WF s.width s.height s.board →
      (∀ p ∈ s.hit_mem, InB s.width s.height p) → s.hit_mem.Nodup →
      (∀ t ∈ (if sx = ex then spanV sx (min sy ey) (max sy ey)
               else spanH sy (min sx ex) (max sx ex)), InB s.width s.height t) →
      HMInv s → sink s sx sy ex ey = Except.ok (s2, over) → HMInv s2) := by
  refine ⟨?_, ?_, ?_⟩
  · intro s px py res s1 hwf hin hmemB hnot hinv h
    obtain ⟨hx0, hx1, hy0, hy1⟩ := hin
    obtain ⟨b2, hb2, hwf2, hvals⟩ :=
      bSet_wf_spec s.board s.width s.height hwf px py res hx0 hx1 hy0 hy1
    unfold update at h
    rw [hb2] at h
    have h1 := Option.some.inj h
    rw [← h1]
    intro p hp
    dsimp only at hp ⊢
    by_cases hres : res == 'x'
    · rw [if_pos hres] at hp
      rcases List.mem_append.mp hp with hp2 | hp2
      · have hinB := hmemB p hp2
        rw [hvals p.1 p.2 hinB.1 hinB.2.1 hinB.2.2.1 hinB.2.2.2]
        rw [if_neg (fun (hc : p.1 = px ∧ p.2 = py) =>
          hnot ((Prod.ext hc.1 hc.2 : p = (px, py)) ▸ hp2))]
        exact hinv p hp2
      · simp only [List.mem_singleton] at hp2
        subst hp2
        rw [hvals px py hx0 hx1 hy0 hy1, if_pos ⟨rfl, rfl⟩, eq_of_beq hres]
    · rw [if_neg hres] at hp
      have hinB := hmemB p hp
      rw [hvals p.1 p.2 hinB.1 hinB.2.1 hinB.2.2.1 hinB.2.2.2]
      rw [if_neg (fun (hc : p.1 = px ∧ p.2 = py) =>
        hnot ((Prod.ext hc.1 hc.2 : p = (px, py)) ▸ hp))]
      exact hinv p hp
  · intro s c hm cs s1 hwf hmemB hin hpc hc hinv h
    obtain ⟨hmemIff, hfresh⟩ := predCandidates_spec s hm cs hpc
    unfold applyPredict at h
    rw [hpc] at h
    dsimp only at h
    obtain ⟨hx0, hx1, hy0, hy1⟩ := hin
    obtain ⟨b1, hb1, hwf1, hvals⟩ :=
      bSet_wf_spec s.board s.width s.height hwf c.1 c.2 '+' hx0 hx1 hy0 hy1
    rw [hb1] at h
    have h1 := Option.some.inj h
    rw [← h1]
    intro p hp
    dsimp only at hp ⊢
    have hpsm : p ∈ s.hit_mem := (hmemIff p).mp hp
    have hinB := hmemB p hpsm
    rw [hvals p.1 p.2 hinB.1 hinB.2.1 hinB.2.2.1 hinB.2.2.2]
    rw [if_neg (fun (hcc : p.1 = c.1 ∧ p.2 = c.2) =>
      hfresh c hc p hpsm ((Prod.ext hcc.1 hcc.2 : p = c).symm))]
    exact hinv p hpsm
  · intro s sx sy ex ey s2 over hmode hwf hmemB hnd htiles hinv h
    unfold sink at h
    by_cases hxe : sx = ex
    · rw [if_pos hxe] at h htiles
      cases hst : sinkTiles s (spanV sx (min sy ey) (max sy ey)) with
      | error e => rw [hst] at h; exact Except.noConfusion h
      | ok s3 =>
        rw [hst] at h
        have hinv3 := sinkTiles_t_inv _ s s3 hmode hwf hmemB hnd htiles hinv hst
        have hpair := Except.ok.inj h
        have hs2 : s2 = { s3 with
            ships := s3.ships.erase (max sy ey - min sy ey + 1) } :=
          (congrArg Prod.fst hpair).symm
        rw [hs2]
        intro p hp
        exact hinv3 p hp
    · rw [if_neg hxe] at h htiles
      cases hst : sinkTiles s (spanH sy (min sx ex) (max sx ex)) with
      | error e => rw [hst] at h; exact Except.noConfusion h
      | ok s3 =>
        rw [hst] at h
        have hinv3 := sinkTiles_t_inv _ s s3 hmode hwf hmemB hnd htiles hinv hst
        have hpair := Except.ok.inj h
        have hs2 : s2 = { s3 with
            ships := s3.ships.erase (max sx ex - min sx ex + 1) } :=
          (congrArg Prod.fst hpair).symm
        rw [hs2]
        intro p hp
        exact hinv3 p hp

def c8tState : GameState :=
  ⟨[1], "t", 10, 10, c8Board, [(4, 4), (5, 4)]⟩

set_option maxRecDepth 10000 in
theorem C8_hit_memory_invariant_witness :
    HMInv (exceptOkD (sink c8tState 4 4 4 4) (mkGame [])) := by
  obtain ⟨s2, over, hres⟩ :
      ∃ s2 over, sink c8tState 4 4 4 4 = Except.ok (s2, over) := ⟨_, _, rfl⟩
  have hinv := C8_hit_memory_invariant.2.2 c8tState 4 4 4 4 s2 over rfl
    (by decide) (by decide) (by decide) (by decide) (by decide) hres
  have hs : exceptOkD (sink c8tState 4 4 4 4) (mkGame []) = s2 := by
    rw [hres]
    rfl
  rw [hs]
  exact hinv
